import Mathlib

/-!
A verification development for the quiz-game engine of the QuizAPP repository
(`app/services/game.py`, `app/services/question.py`, `app/services/quiz.py`,
`app/models.py`, `app/schemas/*`).

The Python services are embedded shallowly:

* opaque UUID identifiers become natural numbers;
* Python `float` scores become rationals (`ℚ`); Python division `x / y` raises
  `ZeroDivisionError` when `y = 0`, modelled by `pydiv` returning an error;
* `HTTPException(status, detail)` and the Python runtime faults the code can
  raise (`AttributeError` from attribute access on `None`, `IndexError` from
  indexing an empty list, `ZeroDivisionError`, `ValueError`) become an `Err`
  sum type, and every fallible operation returns `Except Err _`;
* the database session becomes an explicit `DB` state record threaded through
  each service function; a service returns its committed state even when it
  raises after a commit (as `service_next_question` does);
* a SQLAlchemy `Result` is a one-shot cursor: `Result.all()` exhausts it, and
  any later fetch (`.scalar()`) returns no rows; `PyResult` models that,
  because `service_start` reuses one `Result` after calling `.all()` on it.

SQL column constraints and the persistence layer itself are not modelled (the
spec treats the store as an external collaborator): a commit always succeeds.
-/

namespace QuizApp

/-- Failures observable from the service layer: `HTTPException(status, detail)`
plus the Python runtime faults this code can actually raise. -/
inductive Err where
  | http (status : Nat) (detail : String)
  | pyAttributeError
  | pyIndexError
  | pyZeroDivision
  | pyValueError (msg : String)
deriving DecidableEq, Repr

/-- `app.models.Answer`: an answer choice of a question (timestamps and the
foreign key back to the question are irrelevant to the engine and elided). -/
structure Answer where
  id : Nat
  value : String
  is_correct : Bool
deriving DecidableEq, Repr

/-- `QuestionTypeEnum.SINGLE_ANSWER.value`. -/
def SINGLE_ANSWER : String := "SINGLE_ANSWER"

/-- `QuestionTypeEnum.MULTIPLE_ANSWERS.value`. -/
def MULTIPLE_ANSWERS : String := "MULTIPLE_ANSWERS"

/-- One step of the set-building loop of `calculate_answer_score`: add the
answer's id to the accumulating set when it satisfies `p`. -/
def addIdIf (p : Answer → Bool) (s : Finset Nat) (a : Answer) : Finset Nat :=
  if p a then insert a.id s else s

/-- The loop `for actual_answer in actual_answers: ...` of
`calculate_answer_score`, restricted to the ids put into one of the two Python
sets: answers satisfying `p` are collected. With `p = is_correct` this is
`correct_answers_set`, with the negation it is `false_answers_set`. -/
def answerIdSet (p : Answer → Bool) (actual_answers : List Answer) : Finset Nat :=
  actual_answers.foldl (addIdIf p) ∅

/-- `correct_answers_set` of `calculate_answer_score`. -/
def correct_answers_set (actual_answers : List Answer) : Finset Nat :=
  answerIdSet (fun a => a.is_correct) actual_answers

/-- `false_answers_set` of `calculate_answer_score`. -/
def false_answers_set (actual_answers : List Answer) : Finset Nat :=
  answerIdSet (fun a => !a.is_correct) actual_answers

/-- The detail string of the `InvalidChoice` failure in
`calculate_answer_score`. -/
def choiceNotInList : Err := .http 400 "Choice not in choices list"

/-- The `for user_choice in user_choices` loop of the MULTIPLE_ANSWERS branch
of `calculate_answer_score`: returns `(plus_score, minus_score)` or raises
`InvalidChoice` at the first choice found in neither set. -/
def tallyChoices (user_choices : List Nat) (cset fset : Finset Nat) :
    Except Err (Nat × Nat) :=
  match user_choices with
  | [] => .ok (0, 0)
  | c :: rest =>
    if c ∈ cset then
      (tallyChoices rest cset fset).map (fun pm => (pm.1 + 1, pm.2))
    else if c ∈ fset then
      (tallyChoices rest cset fset).map (fun pm => (pm.1, pm.2 + 1))
    else
      .error choiceNotInList

/-- Python division: `a / b` raises `ZeroDivisionError` when `b == 0`. -/
def pydiv (a : ℚ) (b : Nat) : Except Err ℚ :=
  if b = 0 then .error .pyZeroDivision else .ok (a / b)

/-- `app.services.game.calculate_answer_score`: the scoring rule. Pure; builds
the correct/incorrect id sets from the stored answers, then scores the user's
choices according to the question type. -/
def calculate_answer_score (user_choices : List Nat)
    (actual_answers : List Answer) (question_type : String) : Except Err ℚ :=
  let cset := correct_answers_set actual_answers
  let fset := false_answers_set actual_answers
  if question_type = SINGLE_ANSWER then
    match user_choices with
    | [] => .error .pyIndexError
    | c :: _ =>
      if c ∈ cset then .ok 1
      else if c ∈ fset then .ok (-1)
      else .error choiceNotInList
  else if question_type = MULTIPLE_ANSWERS then
    match tallyChoices user_choices cset fset with
    | .error e => .error e
    | .ok pm =>
      match pydiv pm.1 cset.card with
      | .error e => .error e
      | .ok plus_score =>
        match pydiv pm.2 fset.card with
        | .error e => .error e
        | .ok minus_score => .ok (plus_score - minus_score)
  else
    .error (.pyValueError "Unknown question_type")

section ScoringLemmas

/-- Membership in the set built by the answer loop. -/
theorem mem_answerIdSet_aux (p : Answer → Bool) (l : List Answer)
    (s : Finset Nat) (x : Nat) :
    x ∈ l.foldl (addIdIf p) s ↔ x ∈ s ∨ ∃ a ∈ l, p a ∧ a.id = x := by
  induction l generalizing s with
  | nil => simp
  | cons a l ih =>
    simp only [List.foldl_cons, ih, addIdIf]
    split <;> rename_i hp
    · simp only [Finset.mem_insert, List.mem_cons]
      constructor
      · rintro (⟨h | h⟩ | ⟨b, hb, hpb, hbx⟩)
        · exact Or.inr ⟨a, Or.inl rfl, hp, h.symm⟩
        · exact Or.inl h
        · exact Or.inr ⟨b, Or.inr hb, hpb, hbx⟩
      · rintro (h | ⟨b, hb | hb, hpb, hbx⟩)
        · exact Or.inl (Or.inr h)
        · exact Or.inl (Or.inl (by rw [← hbx, hb]))
        · exact Or.inr ⟨b, hb, hpb, hbx⟩
    · simp only [List.mem_cons]
      constructor
      · rintro (h | ⟨b, hb, hpb, hbx⟩)
        · exact Or.inl h
        · exact Or.inr ⟨b, Or.inr hb, hpb, hbx⟩
      · rintro (h | ⟨b, hb | hb, hpb, hbx⟩)
        · exact Or.inl h
        · exact absurd (hb ▸ hpb) hp
        · exact Or.inr ⟨b, hb, hpb, hbx⟩

/-- Characterisation of `answerIdSet`. -/
theorem mem_answerIdSet (p : Answer → Bool) (l : List Answer) (x : Nat) :
    x ∈ answerIdSet p l ↔ ∃ a ∈ l, p a ∧ a.id = x := by
  rw [answerIdSet, mem_answerIdSet_aux]
  simp

/-- In the database every `Answer.id` is a primary key, so the answers of a
question have pairwise distinct ids; under that hypothesis an id cannot be in
both Python sets, because each answer lands in exactly one of them. -/
theorem not_mem_false_of_mem_correct (answers : List Answer) (x : Nat)
    (hn : (answers.map Answer.id).Nodup)
    (hx : x ∈ correct_answers_set answers) :
    x ∉ false_answers_set answers := by
  intro hx'
  rw [correct_answers_set, mem_answerIdSet] at hx
  rw [false_answers_set, mem_answerIdSet] at hx'
  obtain ⟨a, ha, hpa, hax⟩ := hx
  obtain ⟨b, hb, hpb, hbx⟩ := hx'
  have hab : a = b := List.inj_on_of_nodup_map hn ha hb (by rw [hax, hbx])
  rw [← hab, hpa] at hpb
  simp at hpb

/-- When every choice is found in one of the two sets, the tally loop returns
the two counts: choices in `cset`, and choices outside `cset` in `fset`. -/
theorem tallyChoices_eq_ok (choices : List Nat) (cs fs : Finset Nat)
    (h : ∀ c ∈ choices, c ∈ cs ∨ c ∈ fs) :
    tallyChoices choices cs fs =
      .ok (choices.countP (fun c => decide (c ∈ cs)),
           choices.countP (fun c => decide (c ∉ cs ∧ c ∈ fs))) := by
  induction choices with
  | nil => simp [tallyChoices]
  | cons c rest ih =>
    have hrest : ∀ x ∈ rest, x ∈ cs ∨ x ∈ fs := fun x hx => h x (List.mem_cons_of_mem _ hx)
    rcases h c (List.mem_cons_self _ _) with hc | hc
    · rw [tallyChoices, if_pos hc, ih hrest]
      simp [Except.map, List.countP_cons, hc]
    · by_cases hcc : c ∈ cs
      · rw [tallyChoices, if_pos hcc, ih hrest]
        simp [Except.map, List.countP_cons, hcc]
      · rw [tallyChoices, if_neg hcc, if_pos hc, ih hrest]
        simp [Except.map, List.countP_cons, hcc, hc]

/-- A choice found in neither set makes the tally loop raise `InvalidChoice`. -/
theorem tallyChoices_eq_error (choices : List Nat) (cs fs : Finset Nat)
    (c : Nat) (hm : c ∈ choices) (hc : c ∉ cs) (hf : c ∉ fs) :
    tallyChoices choices cs fs = .error choiceNotInList := by
  induction choices with
  | nil => cases hm
  | cons a rest ih =>
    rcases List.mem_cons.mp hm with rfl | hm'
    · rw [tallyChoices, if_neg hc, if_neg hf]
    · by_cases hac : a ∈ cs
      · rw [tallyChoices, if_pos hac, ih hm']; rfl
      · by_cases haf : a ∈ fs
        · rw [tallyChoices, if_neg hac, if_pos haf, ih hm']; rfl
        · rw [tallyChoices, if_neg hac, if_neg haf]

/-- A successful tally means every choice was found in one of the two sets. -/
theorem tallyChoices_ok_mem (choices : List Nat) (cs fs : Finset Nat)
    (pm : Nat × Nat) (h : tallyChoices choices cs fs = .ok pm) :
    ∀ c ∈ choices, c ∈ cs ∨ c ∈ fs := by
  intro c hc
  by_contra hcon
  push_neg at hcon
  rw [tallyChoices_eq_error choices cs fs c hc hcon.1 hcon.2] at h
  cases h

/-- A successful tally returns exactly the two membership counts. -/
theorem tallyChoices_ok_counts (choices : List Nat) (cs fs : Finset Nat)
    (pm : Nat × Nat) (h : tallyChoices choices cs fs = .ok pm) :
    pm = (choices.countP (fun c => decide (c ∈ cs)),
          choices.countP (fun c => decide (c ∉ cs ∧ c ∈ fs))) := by
  have := tallyChoices_eq_ok choices cs fs (tallyChoices_ok_mem choices cs fs pm h)
  rw [h] at this
  exact Except.ok.inj this

/-- A count is unchanged when the two predicates agree on every element. -/
theorem countP_congr_mem {α : Type} (l : List α) (p q : α → Bool)
    (h : ∀ x ∈ l, p x = q x) : l.countP p = l.countP q := by
  induction l with
  | nil => rfl
  | cons a l ih =>
    rw [List.countP_cons, List.countP_cons,
      ih (fun x hx => h x (List.mem_cons_of_mem _ hx)), h a (List.mem_cons_self _ _)]

end ScoringLemmas

section ScoringClaims

/-- C1: for every MULTIPLE_ANSWERS question whose correct and incorrect
answer-id sets are both non-empty, and every list of chosen ids each of which
belongs to one of the two sets, the scoring rule returns
`p / |correct_ids| - m / |incorrect_ids|` (`p` = count of chosen ids found in
`correct_ids`, `m` = count found in `incorrect_ids`); if any chosen id belongs
to neither set it fails with `InvalidChoice` instead. Answer ids are primary
keys, hence pairwise distinct. -/
theorem multiple_answers_scoring_rule (answers : List Answer) (choices : List Nat)
    (hn : (answers.map Answer.id).Nodup)
    (hc : correct_answers_set answers ≠ ∅)
    (hf : false_answers_set answers ≠ ∅) :
    ((∀ c ∈ choices, c ∈ correct_answers_set answers ∨ c ∈ false_answers_set answers) →
      calculate_answer_score choices answers MULTIPLE_ANSWERS =
        .ok ((choices.countP (fun c => decide (c ∈ correct_answers_set answers)) : ℚ) /
               (correct_answers_set answers).card -
             (choices.countP (fun c => decide (c ∈ false_answers_set answers)) : ℚ) /
               (false_answers_set answers).card)) ∧
    (∀ c ∈ choices, c ∉ correct_answers_set answers → c ∉ false_answers_set answers →
      calculate_answer_score choices answers MULTIPLE_ANSWERS = .error choiceNotInList) := by
  have hne : ¬(MULTIPLE_ANSWERS = SINGLE_ANSWER) := by decide
  constructor
  · intro h
    have hC0 : (correct_answers_set answers).card ≠ 0 := by
      rw [Ne, Finset.card_eq_zero]; exact hc
    have hF0 : (false_answers_set answers).card ≠ 0 := by
      rw [Ne, Finset.card_eq_zero]; exact hf
    have hcong : ∀ x ∈ choices,
        decide (x ∉ correct_answers_set answers ∧ x ∈ false_answers_set answers) =
        decide (x ∈ false_answers_set answers) := by
      intro x hx
      by_cases hxf : x ∈ false_answers_set answers
      · have hxc : x ∉ correct_answers_set answers :=
          fun hxc => not_mem_false_of_mem_correct answers x hn hxc hxf
        simp [hxf, hxc]
      · simp [hxf]
    rw [calculate_answer_score.eq_def, if_neg hne, if_pos rfl,
      tallyChoices_eq_ok choices _ _ h]
    simp only [pydiv, if_neg hC0, if_neg hF0]
    rw [countP_congr_mem choices _ _ hcong]
  · intro c hc1 hc2 hc3
    rw [calculate_answer_score.eq_def, if_neg hne, if_pos rfl,
      tallyChoices_eq_error choices _ _ c hc1 hc2 hc3]

/-- C1 witness: a concrete MULTIPLE_ANSWERS question with one correct and one
incorrect answer, choices picking one of each: score `1/1 - 1/1 = 0`. -/
theorem multiple_answers_scoring_rule_witness :
    calculate_answer_score [1, 2] [⟨1, "a", true⟩, ⟨2, "b", false⟩] MULTIPLE_ANSWERS =
      .ok 0 := by
  have h := (multiple_answers_scoring_rule [⟨1, "a", true⟩, ⟨2, "b", false⟩] [1, 2]
    (by decide) (by decide) (by decide)).1 (by decide)
  rw [h]
  with_unfolding_all rfl

/-- C2: for every SINGLE_ANSWER question and a single chosen id, the scoring
rule returns `+1` if the chosen id is in the correct-answer set, `-1` if it is
in the incorrect-answer set, and fails with `InvalidChoice` if it belongs to
neither. Answer ids are primary keys, hence pairwise distinct. -/
theorem single_answer_scoring_rule (answers : List Answer) (c : Nat)
    (hn : (answers.map Answer.id).Nodup) :
    (c ∈ correct_answers_set answers →
      calculate_answer_score [c] answers SINGLE_ANSWER = .ok 1) ∧
    (c ∈ false_answers_set answers →
      calculate_answer_score [c] answers SINGLE_ANSWER = .ok (-1)) ∧
    (c ∉ correct_answers_set answers → c ∉ false_answers_set answers →
      calculate_answer_score [c] answers SINGLE_ANSWER = .error choiceNotInList) := by
  refine ⟨?_, ?_, ?_⟩
  · intro hc
    rw [calculate_answer_score.eq_def, if_pos rfl]
    simp only [if_pos hc]
  · intro hf
    have hcn : c ∉ correct_answers_set answers :=
      fun hcc => not_mem_false_of_mem_correct answers c hn hcc hf
    rw [calculate_answer_score.eq_def, if_pos rfl]
    simp only [if_neg hcn, if_pos hf]
  · intro hcn hfn
    rw [calculate_answer_score.eq_def, if_pos rfl]
    simp only [if_neg hcn, if_neg hfn]

/-- C2 witness: concrete SINGLE_ANSWER question; the correct choice scores
`+1`, the incorrect choice scores `-1`. -/
theorem single_answer_scoring_rule_witness :
    calculate_answer_score [5] [⟨5, "x", true⟩, ⟨6, "y", false⟩] SINGLE_ANSWER = .ok 1 ∧
    calculate_answer_score [6] [⟨5, "x", true⟩, ⟨6, "y", false⟩] SINGLE_ANSWER = .ok (-1) :=
  ⟨(single_answer_scoring_rule [⟨5, "x", true⟩, ⟨6, "y", false⟩] 5 (by decide)).1 (by decide),
   (single_answer_scoring_rule [⟨5, "x", true⟩, ⟨6, "y", false⟩] 6 (by decide)).2.1 (by decide)⟩

/-- C7 counterexample: the submitted choice list may repeat an id (nothing
upstream deduplicates it), and then the MULTIPLE_ANSWERS score escapes
`[-1, 1]`: choosing the single correct answer twice scores `2/1 - 0/1 = 2`. -/
theorem multiple_answers_score_exceeds_bound :
    calculate_answer_score [1, 1] [⟨1, "a", true⟩, ⟨2, "b", false⟩] MULTIPLE_ANSWERS =
      .ok 2 ∧ ¬((2 : ℚ) ≤ 1) := by
  constructor
  · with_unfolding_all rfl
  · norm_num

/-- C7 (amended): for every MULTIPLE_ANSWERS question and every submitted list
of pairwise distinct choice ids accepted by the scoring rule, the resulting
score lies in `[-1, 1]`. -/
theorem multiple_answers_score_bounded (answers : List Answer) (choices : List Nat)
    (s : ℚ) (hnd : choices.Nodup)
    (h : calculate_answer_score choices answers MULTIPLE_ANSWERS = .ok s) :
    -1 ≤ s ∧ s ≤ 1 := by
  have hne : ¬(MULTIPLE_ANSWERS = SINGLE_ANSWER) := by decide
  rw [calculate_answer_score.eq_def, if_neg hne, if_pos rfl] at h
  rcases htal : tallyChoices choices (correct_answers_set answers) (false_answers_set answers)
    with e | pm
  · rw [htal] at h; cases h
  · rw [htal] at h
    obtain ⟨hp, hm⟩ := Prod.mk.injEq _ _ _ _ ▸ tallyChoices_ok_counts choices _ _ pm htal
    by_cases hC0 : (correct_answers_set answers).card = 0
    · simp only [pydiv, if_pos hC0] at h; cases h
    by_cases hF0 : (false_answers_set answers).card = 0
    · simp only [pydiv, if_neg hC0, if_pos hF0] at h; cases h
    simp only [pydiv, if_neg hC0, if_neg hF0] at h
    obtain rfl := (Except.ok.inj h).symm
    have hCpos : 0 < ((correct_answers_set answers).card : ℚ) := by
      exact_mod_cast Nat.pos_of_ne_zero hC0
    have hFpos : 0 < ((false_answers_set answers).card : ℚ) := by
      exact_mod_cast Nat.pos_of_ne_zero hF0
    have hple : pm.1 ≤ (correct_answers_set answers).card := by
      rw [hp, List.countP_eq_length_filter]
      calc (choices.filter (fun c => decide (c ∈ correct_answers_set answers))).length
          = (choices.filter (fun c => decide (c ∈ correct_answers_set answers))).toFinset.card := by
            rw [List.toFinset_card_of_nodup (hnd.filter _)]
        _ ≤ (correct_answers_set answers).card := by
            apply Finset.card_le_card
            intro x hx
            rw [List.mem_toFinset] at hx
            have := List.of_mem_filter hx
            exact of_decide_eq_true this
    have hmle : pm.2 ≤ (false_answers_set answers).card := by
      rw [hm, List.countP_eq_length_filter]
      calc (choices.filter (fun c => decide (c ∉ correct_answers_set answers ∧ c ∈ false_answers_set answers))).length
          = (choices.filter (fun c => decide (c ∉ correct_answers_set answers ∧ c ∈ false_answers_set answers))).toFinset.card := by
            rw [List.toFinset_card_of_nodup (hnd.filter _)]
        _ ≤ (false_answers_set answers).card := by
            apply Finset.card_le_card
            intro x hx
            rw [List.mem_toFinset] at hx
            have := List.of_mem_filter hx
            exact (of_decide_eq_true this).2
    have h1 : (pm.1 : ℚ) / (correct_answers_set answers).card ≤ 1 := by
      rw [div_le_one hCpos]
      exact_mod_cast hple
    have h2 : (pm.2 : ℚ) / (false_answers_set answers).card ≤ 1 := by
      rw [div_le_one hFpos]
      exact_mod_cast hmle
    have h3 : 0 ≤ (pm.1 : ℚ) / (correct_answers_set answers).card :=
      div_nonneg (Nat.cast_nonneg _) (le_of_lt hCpos)
    have h4 : 0 ≤ (pm.2 : ℚ) / (false_answers_set answers).card :=
      div_nonneg (Nat.cast_nonneg _) (le_of_lt hFpos)
    constructor <;> linarith

/-- C7 witness: a concrete duplicate-free accepted submission; its score `0`
lies in `[-1, 1]`. -/
theorem multiple_answers_score_bounded_witness : -1 ≤ (0 : ℚ) ∧ (0 : ℚ) ≤ 1 :=
  multiple_answers_score_bounded [⟨1, "a", true⟩, ⟨2, "b", false⟩] [1, 2] 0
    (by decide) (by with_unfolding_all rfl)

/-- C8: a MULTIPLE_ANSWERS question whose incorrect-answer set is empty makes
the scoring rule divide by `len(false_answers_set) = 0`: the code has no guard
and raises the arithmetic `ZeroDivisionError`, not a data-integrity error. -/
theorem empty_incorrect_set_zero_division :
    false_answers_set [⟨1, "a", true⟩] = ∅ ∧
    calculate_answer_score [1] [⟨1, "a", true⟩] MULTIPLE_ANSWERS =
      .error .pyZeroDivision := by
  constructor
  · rfl
  · rfl

end ScoringClaims

section DataModel

/-- `app.models.Question` (timestamps elided; `answers` is the eagerly loaded
relationship). -/
structure Question where
  id : Nat
  title : String
  type : String
  quiz_id : Nat
  answers : List Answer
deriving DecidableEq, Repr

/-- `app.models.Quiz` (timestamps and relationship collections elided; the
question list lives in `DB.questions`, keyed by `quiz_id`, in creation
order). -/
structure Quiz where
  id : Nat
  title : String
  published : Bool
  deleted : Bool
  user_id : Nat
deriving DecidableEq, Repr

/-- `app.models.Game` (timestamps elided). -/
structure Game where
  id : Nat
  user_id : Nat
  quiz_id : Nat
  finished : Bool
  score : ℚ
  offset : Nat
deriving DecidableEq, Repr

/-- `app.models.GameQuestion` (timestamps elided). A row is created pending
with `answer_score` unset; the model stores `0` for the unset value, which is
only ever surfaced for still-pending rows in the results listing. -/
structure GameQuestion where
  id : Nat
  answered : Bool
  skipped : Bool
  answer_score : ℚ
  question_id : Nat
  game_id : Nat
deriving DecidableEq, Repr

/-- `app.models.GameAnswer` (its own primary key is never read by the engine
and is elided). -/
structure GameAnswer where
  choice : Nat
  game_question_id : Nat
deriving DecidableEq, Repr

/-- The persistent store as seen by the game engine. Row lists are kept in
insertion order (the stable creation order the sequencer relies on); `nextId`
supplies fresh primary keys for created rows. -/
structure DB where
  quizzes : List Quiz
  questions : List Question
  games : List Game
  gameQuestions : List GameQuestion
  gameAnswers : List GameAnswer
  nextId : Nat
deriving DecidableEq, Repr

/-- A SQLAlchemy `Result`: a one-shot cursor over the fetched rows.
`Result.all()` returns every remaining row and exhausts the cursor, so any
later fetch on the same object returns no rows. -/
structure PyResult (α : Type) where
  rows : List α
  consumed : Bool
deriving DecidableEq, Repr

/-- `Result.all()`: all remaining rows; exhausts the cursor. -/
def PyResult.all {α : Type} (r : PyResult α) : List α × PyResult α :=
  (if r.consumed then [] else r.rows, { r with consumed := true })

/-- `Result.scalar()`: first remaining row or `None`; exhausts the cursor. -/
def PyResult.scalar {α : Type} (r : PyResult α) : Option α × PyResult α :=
  (if r.consumed then none else r.rows.head?, { r with consumed := true })

end DataModel

section Services

/-- `app.services.quiz.get_quiz`: quiz by id, ignoring deleted rows. -/
def get_quiz (db : DB) (quiz_id : Nat) : Except Err Quiz :=
  match db.quizzes.find? (fun q => q.id == quiz_id && !q.deleted) with
  | none => .error (.http 404 "Quiz not found")
  | some q => .ok q

/-- `app.services.game.get_game`: game by id filtered by owner; `NotFound`
when the filter matches nothing. -/
def get_game (db : DB) (game_id user_id : Nat) : Except Err Game :=
  match db.games.filter (fun g => g.id == game_id && g.user_id == user_id) with
  | [] => .error (.http 404 "Game not found")
  | g :: _ => .ok g

/-- `app.services.question.paginate_questions`: the question of the quiz at
zero-based position `offset` in creation order, if any
(`select ... limit(1).offset(offset)`). -/
def paginate_questions (db : DB) (quiz_id : Nat) (offset : Nat) : Option Question :=
  ((db.questions.filter (fun q => q.quiz_id == quiz_id)).drop offset).head?

/-- `app.services.game.get_game_question`: GameQuestion by its own id under
the given game. -/
def get_game_question (db : DB) (game_id question_id : Nat) :
    Except Err GameQuestion :=
  match db.gameQuestions.find? (fun gq => gq.id == question_id && gq.game_id == game_id) with
  | none => .error (.http 400 "Question not found for game")
  | some gq => .ok gq

/-- `app.services.question.get_question`: question by id. The source tests
`if not question:` on the Result object, which is always truthy, so a missing
row is never caught there and `unique_questions[0]` raises `IndexError`. -/
def get_question (db : DB) (question_id : Nat) : Except Err Question :=
  match db.questions.find? (fun q => q.id == question_id) with
  | none => .error .pyIndexError
  | some q => .ok q

/-- `app.services.game.check_question_answered_or_skipped`. -/
def check_question_answered_or_skipped (game_question : GameQuestion) :
    Except Err Unit :=
  if game_question.skipped then .error (.http 400 "Question already skipped")
  else if game_question.answered then .error (.http 400 "Question already answered")
  else .ok ()

/-- `app.services.game.service_start`. The source runs one SELECT for the
(user, quiz) pair and then reads the same `Result` three times:
`existing_game.all()` (exhausting it), `existing_game.scalar().finished` and
`existing_game.scalar().id`; after `all()` both `scalar()` calls yield `None`,
so the existing-game branches dereference `None`. -/
def service_start (db : DB) (quiz_id user_id : Nat) : Except Err Nat × DB :=
  match get_quiz db quiz_id with
  | .error e => (.error e, db)
  | .ok quiz =>
    if quiz.deleted || !quiz.published then (.error (.http 404 "Quiz not found"), db)
    else
      let existing_game : PyResult Game :=
        ⟨db.games.filter (fun g => g.quiz_id == quiz_id && g.user_id == user_id), false⟩
      let res1 := existing_game.all
      if res1.1.isEmpty then
        let new_game : Game := ⟨db.nextId, user_id, quiz_id, false, 0, 0⟩
        (.ok new_game.id,
         { db with games := db.games ++ [new_game], nextId := db.nextId + 1 })
      else
        let res2 := res1.2.scalar
        match res2.1 with
        | none => (.error .pyAttributeError, db)
        | some g =>
          if g.finished then (.error (.http 400 "You already played this game"), db)
          else
            let res3 := res2.2.scalar
            match res3.1 with
            | none => (.error .pyAttributeError, db)
            | some g2 => (.ok g2.id, db)

/-- Payload returned by `service_next_question`. -/
structure NextPayload where
  id : Nat
  type : String
  title : String
  answers : List Answer
deriving DecidableEq, Repr

/-- Row-level effect of `update(Game).where(Game.id == game_id).values(finished=True)`. -/
def updGameFinish (game_id : Nat) (g : Game) : Game :=
  if g.id == game_id then { g with finished := true } else g

/-- Mark one game finished (`update(Game).where(...).values(finished=True)`). -/
def setFinished (db : DB) (game_id : Nat) : DB :=
  { db with games := db.games.map (updGameFinish game_id) }

/-- `app.services.game.service_next_question`. When the sequencer is
exhausted the game is marked finished and the AlreadyFinished error raised.
When the GameQuestion is missing it is created and committed, but the return
statement still reads `game_question_result.id` from the pre-insert lookup,
which is `None`: the row is persisted and then `AttributeError` is raised. -/
def service_next_question (db : DB) (game_id user_id : Nat) :
    Except Err NextPayload × DB :=
  match get_game db game_id user_id with
  | .error e => (.error e, db)
  | .ok game =>
    if game.finished then (.error (.http 400 "Game is already finished"), db)
    else
      match paginate_questions db game.quiz_id game.offset with
      | none => (.error (.http 400 "Game is already finished"), setFinished db game.id)
      | some question =>
        match db.gameQuestions.find?
            (fun gq => gq.question_id == question.id && gq.game_id == game_id) with
        | none =>
          let new_game_question : GameQuestion :=
            ⟨db.nextId, false, false, 0, question.id, game_id⟩
          (.error .pyAttributeError,
           { db with gameQuestions := db.gameQuestions ++ [new_game_question],
                     nextId := db.nextId + 1 })
        | some gq =>
          (.ok ⟨gq.id, question.type, question.title, question.answers⟩, db)

/-- `app.services.game.service_answer_question`. All writes commit together
after scoring succeeds: Game.score/offset, the GameQuestion resolution and one
GameAnswer row per submitted choice. -/
def service_answer_question (db : DB) (choices : List Nat)
    (game_id question_id user_id : Nat) : Except Err Unit × DB :=
  match get_game db game_id user_id with
  | .error e => (.error e, db)
  | .ok game =>
  match get_game_question db game_id question_id with
  | .error e => (.error e, db)
  | .ok game_question =>
  match check_question_answered_or_skipped game_question with
  | .error e => (.error e, db)
  | .ok _ =>
  match get_question db game_question.question_id with
  | .error e => (.error e, db)
  | .ok question =>
    if question.type = SINGLE_ANSWER ∧ choices.length > 1 then
      (.error (.http 400 (question.type ++ " does not support multiple answers")), db)
    else
      match calculate_answer_score choices question.answers question.type with
      | .error e => (.error e, db)
      | .ok score =>
        let db1 := { db with games := db.games.map (fun (g : Game) =>
          if g.id == game.id then
            { g with score := g.score + score, offset := g.offset + 1 } else g) }
        let db2 := { db1 with gameQuestions := db1.gameQuestions.map (fun (gq : GameQuestion) =>
          if gq.id == game_question.id then
            { gq with answer_score := score, answered := true } else gq) }
        let db3 := { db2 with gameAnswers :=
          db2.gameAnswers ++ choices.map (fun c => GameAnswer.mk c game_question.id) }
        (.ok (), db3)

/-- `app.services.game.service_skip_question`: resolves the GameQuestion as
skipped with score 0 and advances the game offset; the running score is
untouched and no GameAnswer rows are created. -/
def service_skip_question (db : DB) (game_id question_id user_id : Nat) :
    Except Err Unit × DB :=
  match get_game db game_id user_id with
  | .error e => (.error e, db)
  | .ok game =>
  match get_game_question db game_id question_id with
  | .error e => (.error e, db)
  | .ok game_question =>
  match check_question_answered_or_skipped game_question with
  | .error e => (.error e, db)
  | .ok _ =>
    let db1 := { db with gameQuestions := db.gameQuestions.map (fun (gq : GameQuestion) =>
      if gq.id == game_question.id then
        { gq with answer_score := 0, skipped := true } else gq) }
    let db2 := { db1 with games := db1.games.map (fun (g : Game) =>
      if g.id == game.id then { g with offset := g.offset + 1 } else g) }
    (.ok (), db2)

/-- Payload returned by `service_get_results`. -/
structure ResultsPayload where
  score : ℚ
  score_percentage : ℚ
  question_stats : List (ℚ × String)
deriving DecidableEq, Repr

/-- `app.services.game.service_get_results`. The per-question stats join every
GameQuestion of the game (pending ones included) with its Question's title;
`max_score` is the number of joined rows and `score / max_score` raises
`ZeroDivisionError` when there are none. Read-only. -/
def service_get_results (db : DB) (game_id user_id : Nat) :
    Except Err ResultsPayload :=
  match get_game db game_id user_id with
  | .error e => .error e
  | .ok game =>
    if !game.finished then .error (.http 400 "Game is not finished yet")
    else
      let question_stats := (db.gameQuestions.filter
          (fun gq => gq.game_id == game_id)).filterMap
        (fun gq => (db.questions.find? (fun q => q.id == gq.question_id)).map
          (fun q => (gq.answer_score, q.title)))
      let max_score := question_stats.length
      match pydiv game.score max_score with
      | .error e => .error e
      | .ok x => .ok ⟨game.score, x * 100, question_stats⟩

end Services

section StartAndNextClaims

/-- A published, non-deleted quiz owned by user 3, used as a concrete
fixture. -/
def startQuiz : Quiz := ⟨100, "quiz", true, false, 3⟩

/-- A store with only the published quiz: no games yet. -/
def startDB0 : DB := ⟨[startQuiz], [], [], [], [], 0⟩

/-- The store after user 7 starts a game on the quiz. -/
def startDB1 : DB := (service_start startDB0 100 7).2

/-- The same store with that game marked finished. -/
def startDB2 : DB := { startDB1 with games := [⟨0, 7, 100, true, 0, 0⟩] }

/-- C3: `service_start` on a fresh (user, quiz) pair creates the game with
`score=0, offset=0, finished=false` and returns its id; but when a Game
already exists — finished or not — the code reaches
`existing_game.scalar().finished` after `existing_game.all()` has exhausted
the result, so `scalar()` returns `None` and the attribute access raises
`AttributeError`: neither the `AlreadyPlayed` failure nor the idempotent
same-id return is reachable. -/
theorem start_existing_game_attribute_error :
    (service_start startDB0 100 7).1 = .ok 0 ∧
    startDB1.games = [⟨0, 7, 100, false, 0, 0⟩] ∧
    service_start startDB1 100 7 = (.error .pyAttributeError, startDB1) ∧
    service_start startDB2 100 7 = (.error .pyAttributeError, startDB2) := by
  refine ⟨?_, ?_, ?_, ?_⟩ <;> with_unfolding_all rfl

/-- A quiz with one SINGLE_ANSWER question, and a freshly started game. -/
def nextQuestionRow : Question :=
  ⟨10, "title", SINGLE_ANSWER, 100, [⟨1, "a", true⟩, ⟨2, "b", false⟩]⟩

/-- Store with the quiz, its question and one unfinished game, before any
GameQuestion exists. -/
def nextDB0 : DB := ⟨[startQuiz], [nextQuestionRow], [⟨0, 7, 100, false, 0, 0⟩], [], [], 1⟩

/-- The store after the first NextQuestion call (which commits the lazily
created GameQuestion and then crashes). -/
def nextDB1 : DB := (service_next_question nextDB0 0 7).2

/-- C4: the first NextQuestion call on a game lazily creates and commits the
pending GameQuestion, but then evaluates `game_question_result.id` where
`game_question_result` is still the pre-insert lookup result `None`, raising
`AttributeError` instead of returning the payload; once the row exists,
repeated calls return the identical GameQuestion id (1, not the Question id
10) with the store unchanged. -/
theorem next_question_lazy_create_attribute_error :
    service_next_question nextDB0 0 7 =
      (.error .pyAttributeError,
       { nextDB0 with gameQuestions := [⟨1, false, false, 0, 10, 0⟩], nextId := 2 }) ∧
    service_next_question nextDB1 0 7 =
      (.ok ⟨1, SINGLE_ANSWER, "title", [⟨1, "a", true⟩, ⟨2, "b", false⟩]⟩, nextDB1) ∧
    (service_next_question nextDB1 0 7).2 = nextDB1 := by
  refine ⟨?_, ?_, ?_⟩ <;> with_unfolding_all rfl

end StartAndNextClaims

section ChoiceCardinalityClaim

/-- Store with one unfinished game and its pending GameQuestion (id 1) for the
SINGLE_ANSWER question. -/
def answerDB : DB :=
  ⟨[startQuiz], [nextQuestionRow], [⟨0, 7, 100, false, 0, 0⟩],
   [⟨1, false, false, 0, 10, 0⟩], [], 2⟩

/-- C10 counterexample: an Answer call with an empty choices list on a
SINGLE_ANSWER question passes the cardinality guard (`len(choices) > 1` is
false for the empty list), reaches the scoring rule, and fails there with
`IndexError` from `user_choices[0]` — not with the cardinality failure. -/
theorem empty_choices_reach_scoring_index_error :
    service_answer_question answerDB [] 0 1 7 = (.error .pyIndexError, answerDB) := by
  with_unfolding_all rfl

/-- C10 (amended): the cardinality guard only rejects lists with more than one
choice; an empty choices list reaches the scoring rule, where the
`user_choices[0]` access raises `IndexError`; for every non-empty choices list
that access is in bounds and `IndexError` is impossible. -/
theorem single_answer_choice_access (choices : List Nat) (answers : List Answer) :
    (choices = [] →
      calculate_answer_score choices answers SINGLE_ANSWER = .error .pyIndexError) ∧
    (choices ≠ [] →
      calculate_answer_score choices answers SINGLE_ANSWER ≠ .error .pyIndexError) := by
  constructor
  · rintro rfl
    rw [calculate_answer_score.eq_def, if_pos rfl]
  · intro hne
    match choices, hne with
    | c :: rest, _ =>
      rw [calculate_answer_score.eq_def, if_pos rfl]
      dsimp only
      by_cases hc : c ∈ correct_answers_set answers
      · rw [if_pos hc]; intro h; cases h
      · rw [if_neg hc]
        by_cases hf : c ∈ false_answers_set answers
        · rw [if_pos hf]; intro h; cases h
        · rw [if_neg hf]; intro h; cases h

/-- C10 witness: with a concrete question, the empty list raises `IndexError`
and the one-element list does not. -/
theorem single_answer_choice_access_witness :
    calculate_answer_score [] [⟨1, "a", true⟩] SINGLE_ANSWER = .error .pyIndexError ∧
    calculate_answer_score [1] [⟨1, "a", true⟩] SINGLE_ANSWER ≠ .error .pyIndexError :=
  ⟨(single_answer_choice_access [] [⟨1, "a", true⟩]).1 rfl,
   (single_answer_choice_access [1] [⟨1, "a", true⟩]).2 (by simp)⟩

end ChoiceCardinalityClaim

section StateMachine

/-- One engine operation applied to the store. These are the four
state-changing services; `service_get_results` never writes. -/
inductive Step : DB → DB → Prop where
  | start (db : DB) (quiz_id user_id : Nat) :
      Step db (service_start db quiz_id user_id).2
  | next (db : DB) (game_id user_id : Nat) :
      Step db (service_next_question db game_id user_id).2
  | answer (db : DB) (choices : List Nat) (game_id question_id user_id : Nat) :
      Step db (service_answer_question db choices game_id question_id user_id).2
  | skip (db : DB) (game_id question_id user_id : Nat) :
      Step db (service_skip_question db game_id question_id user_id).2

/-- Stores reachable by the engine from a store holding no play-through state
yet (arbitrary catalog content, no games). -/
inductive Reachable : DB → Prop where
  | init (db : DB) (hg : db.games = []) (hgq : db.gameQuestions = [])
      (hga : db.gameAnswers = []) : Reachable db
  | step (db db' : DB) (h : Reachable db) (hs : Step db db') : Reachable db'

/-- Number of questions of a quiz (the sequencer is exhausted exactly when the
game offset reaches this). -/
def numQuestions (db : DB) (quiz_id : Nat) : Nat :=
  (db.questions.filter (fun q => q.quiz_id == quiz_id)).length

/-- Number of resolved (answered or skipped) GameQuestions of a game. -/
def resolvedCount (db : DB) (game_id : Nat) : Nat :=
  db.gameQuestions.countP
    (fun gq => gq.game_id == game_id && (gq.answered || gq.skipped))

/-- The engine's state invariant: primary keys are unique and below the fresh
id; `answered`/`skipped` are mutually exclusive; a finished game has exhausted
its quiz's questions; every game has resolved exactly `offset` GameQuestions;
every GameQuestion refers to an existing catalog question. -/
structure Inv (db : DB) : Prop where
  games_nodup : (db.games.map Game.id).Nodup
  games_lt : ∀ g ∈ db.games, g.id < db.nextId
  gqs_nodup : (db.gameQuestions.map GameQuestion.id).Nodup
  gqs_lt : ∀ gq ∈ db.gameQuestions, gq.id < db.nextId
  gqs_game_lt : ∀ gq ∈ db.gameQuestions, gq.game_id < db.nextId
  mutex : ∀ gq ∈ db.gameQuestions, ¬(gq.answered = true ∧ gq.skipped = true)
  finished_exhausted : ∀ g ∈ db.games, g.finished = true →
    numQuestions db g.quiz_id ≤ g.offset
  resolved_eq_offset : ∀ g ∈ db.games, resolvedCount db g.id = g.offset
  gq_question_exists : ∀ gq ∈ db.gameQuestions,
    ∃ q ∈ db.questions, q.id = gq.question_id

/-- The head of a list is a member. -/
theorem mem_of_head?_eq_some {α : Type} {l : List α} {a : α}
    (h : l.head? = some a) : a ∈ l := by
  cases l with
  | nil => cases h
  | cons b t =>
    cases h
    exact List.mem_cons_self _ _

/-- Counting after an update that rewrites exactly the unique element with key
`t`: the count changes by the flip of that one element's predicate value. -/
theorem countP_map_single_update {α : Type} (l : List α) (key : α → Nat)
    (f : α → α) (t : Nat) (x₀ : α) (p : α → Bool)
    (hnd : (l.map key).Nodup) (hf : ∀ x, key x ≠ t → f x = x)
    (hx : x₀ ∈ l) (hk : key x₀ = t) :
    (l.map f).countP p + (if p x₀ then 1 else 0) =
      l.countP p + (if p (f x₀) then 1 else 0) := by
  induction l with
  | nil => cases hx
  | cons a l ih =>
    rw [List.map_cons] at hnd ⊢
    have hnd' := List.nodup_cons.mp hnd
    rcases List.mem_cons.mp hx with rfl | hx'
    · have htail : ∀ y ∈ l, key y ≠ t := by
        intro y hy hyt
        have hmem2 : key x₀ ∈ List.map key l := by
          rw [hk, ← hyt]
          exact List.mem_map_of_mem key hy
        exact hnd'.1 hmem2
      have hmap : l.map f = l := by
        have h1 : l.map f = l.map id :=
          List.map_congr_left (fun y hy => hf y (htail y hy))
        rw [h1, List.map_id]
      rw [hmap, List.countP_cons, List.countP_cons]
      exact Nat.add_right_comm _ _ _
    · have hat : key a ≠ t := by
        intro hat
        have hmem2 : key a ∈ List.map key l := by
          rw [hat, ← hk]
          exact List.mem_map_of_mem key hx'
        exact hnd'.1 hmem2
      rw [hf a hat, List.countP_cons, List.countP_cons]
      have h2 := ih hnd'.2 hx'
      omega

/-- A mapped update touching no member's predicate leaves the count
unchanged. -/
theorem countP_map_invariant {α : Type} (l : List α) (f : α → α) (p : α → Bool)
    (h : ∀ x ∈ l, p (f x) = p x) : (l.map f).countP p = l.countP p := by
  rw [List.countP_map]
  exact countP_congr_mem l _ _ (fun x hx => h x hx)

/-- Facts extracted from a successful `get_game`. -/
theorem get_game_ok_facts {db : DB} {gid uid : Nat} {g : Game}
    (h : get_game db gid uid = .ok g) :
    g ∈ db.games ∧ g.id = gid ∧ g.user_id = uid := by
  rw [get_game] at h
  rcases hfil : db.games.filter (fun g => g.id == gid && g.user_id == uid)
    with _ | ⟨g0, rest⟩
  · rw [hfil] at h; cases h
  · rw [hfil] at h
    cases h
    have hmem : g ∈ db.games.filter (fun g => g.id == gid && g.user_id == uid) := by
      rw [hfil]; exact List.mem_cons_self _ _
    rw [List.mem_filter] at hmem
    obtain ⟨hm, hp⟩ := hmem
    rw [Bool.and_eq_true, beq_iff_eq, beq_iff_eq] at hp
    exact ⟨hm, hp.1, hp.2⟩

/-- Facts extracted from a successful `get_game_question`. -/
theorem get_game_question_ok_facts {db : DB} {gid qid : Nat} {gq : GameQuestion}
    (h : get_game_question db gid qid = .ok gq) :
    gq ∈ db.gameQuestions ∧ gq.id = qid ∧ gq.game_id = gid := by
  rw [get_game_question] at h
  rcases hfind : db.gameQuestions.find? (fun gq => gq.id == qid && gq.game_id == gid)
    with _ | gq0
  · rw [hfind] at h; cases h
  · rw [hfind] at h
    cases h
    have hp := List.find?_some hfind
    rw [Bool.and_eq_true, beq_iff_eq, beq_iff_eq] at hp
    exact ⟨List.mem_of_find?_eq_some hfind, hp.1, hp.2⟩

/-- A successful resolution check means the GameQuestion is pending. -/
theorem check_ok_facts {gq : GameQuestion} {u : Unit}
    (h : check_question_answered_or_skipped gq = .ok u) :
    gq.skipped = false ∧ gq.answered = false := by
  rw [check_question_answered_or_skipped] at h
  by_cases hs : gq.skipped = true
  · rw [if_pos hs] at h; cases h
  · rw [if_neg hs] at h
    by_cases ha : gq.answered = true
    · rw [if_pos ha] at h; cases h
    · exact ⟨Bool.not_eq_true _ ▸ hs, Bool.not_eq_true _ ▸ ha⟩

/-- An exhausted sequencer means the offset has reached the question count. -/
theorem paginate_none_facts {db : DB} {qid off : Nat}
    (h : paginate_questions db qid off = none) : numQuestions db qid ≤ off := by
  rw [paginate_questions, List.head?_eq_none_iff, List.drop_eq_nil_iff] at h
  exact h

/-- A yielded question belongs to the store and to the quiz. -/
theorem paginate_some_facts {db : DB} {qid off : Nat} {q : Question}
    (h : paginate_questions db qid off = some q) :
    q ∈ db.questions ∧ q.quiz_id = qid := by
  rw [paginate_questions] at h
  have hmem := mem_of_head?_eq_some h
  have hmem' := List.drop_subset _ _ hmem
  rw [List.mem_filter] at hmem'
  exact ⟨hmem'.1, beq_iff_eq.mp hmem'.2⟩

end StateMachine

section OpCharacterizations

/-- The store produced by the create branch of `service_start`. -/
def applyStartWrites (db : DB) (quiz_id user_id : Nat) : DB :=
  { db with games := db.games ++ [⟨db.nextId, user_id, quiz_id, false, 0, 0⟩],
            nextId := db.nextId + 1 }

/-- The store produced by the lazy-create branch of `service_next_question`. -/
def applyNextWrites (db : DB) (game_id question_id : Nat) : DB :=
  { db with gameQuestions := db.gameQuestions ++ [⟨db.nextId, false, false, 0, question_id, game_id⟩],
            nextId := db.nextId + 1 }

/-- Row-level effect of the Game update of `service_answer_question`. -/
def updGameOnAnswer (game_id : Nat) (score : ℚ) (g : Game) : Game :=
  if g.id == game_id then
    { g with score := g.score + score, offset := g.offset + 1 } else g

/-- Row-level effect of the GameQuestion mutation of
`service_answer_question`. -/
def updGqOnAnswer (gq_id : Nat) (score : ℚ) (x : GameQuestion) : GameQuestion :=
  if x.id == gq_id then { x with answer_score := score, answered := true } else x

/-- Row-level effect of the GameQuestion mutation of `service_skip_question`. -/
def updGqOnSkip (gq_id : Nat) (x : GameQuestion) : GameQuestion :=
  if x.id == gq_id then { x with answer_score := 0, skipped := true } else x

/-- Row-level effect of the Game update of `service_skip_question`. -/
def updGameOnSkip (game_id : Nat) (g : Game) : Game :=
  if g.id == game_id then { g with offset := g.offset + 1 } else g

/-- The store produced by the write section of `service_answer_question`. -/
def applyAnswerWrites (db : DB) (game_id gq_id : Nat) (score : ℚ)
    (choices : List Nat) : DB :=
  { db with games := db.games.map (updGameOnAnswer game_id score),
            gameQuestions := db.gameQuestions.map (updGqOnAnswer gq_id score),
            gameAnswers :=
              db.gameAnswers ++ choices.map (fun c => GameAnswer.mk c gq_id) }

/-- The store produced by the write section of `service_skip_question`. -/
def applySkipWrites (db : DB) (game_id gq_id : Nat) : DB :=
  { db with gameQuestions := db.gameQuestions.map (updGqOnSkip gq_id),
            games := db.games.map (updGameOnSkip game_id) }

/-- `service_start` either leaves the store unchanged or appends one fresh
game. -/
theorem service_start_snd (db : DB) (q u : Nat) :
    (service_start db q u).2 = db ∨
    (service_start db q u).2 = applyStartWrites db q u := by
  rw [service_start.eq_def]
  rcases hq : get_quiz db q with e | quiz
  · exact Or.inl rfl
  · dsimp only
    split
    · exact Or.inl rfl
    · split
      · exact Or.inr rfl
      · exact Or.inl rfl

/-- `service_next_question` either leaves the store unchanged, or marks the
addressed game finished on sequencer exhaustion, or appends one fresh pending
GameQuestion. -/
theorem service_next_snd (db : DB) (gid uid : Nat) :
    (service_next_question db gid uid).2 = db ∨
    (∃ g, get_game db gid uid = .ok g ∧ g.finished = false ∧
      paginate_questions db g.quiz_id g.offset = none ∧
      (service_next_question db gid uid).2 = setFinished db g.id) ∨
    (∃ g qrow, get_game db gid uid = .ok g ∧ g.finished = false ∧
      paginate_questions db g.quiz_id g.offset = some qrow ∧
      (service_next_question db gid uid).2 = applyNextWrites db gid qrow.id) := by
  rcases hg : get_game db gid uid with e | game
  · rw [service_next_question.eq_def, hg]
    exact Or.inl rfl
  · by_cases hfin : game.finished = true
    · rw [service_next_question.eq_def, hg]
      dsimp only
      rw [if_pos hfin]
      exact Or.inl rfl
    · rcases hp : paginate_questions db game.quiz_id game.offset with _ | qrow
      · refine Or.inr (Or.inl ⟨game, rfl, Bool.not_eq_true _ ▸ hfin, hp, ?_⟩)
        rw [service_next_question.eq_def, hg]
        dsimp only
        rw [if_neg hfin, hp]
      · rcases hfind : db.gameQuestions.find?
            (fun gq => gq.question_id == qrow.id && gq.game_id == gid) with _ | gq
        · refine Or.inr (Or.inr ⟨game, qrow, rfl, Bool.not_eq_true _ ▸ hfin, hp, ?_⟩)
          rw [service_next_question.eq_def, hg]
          dsimp only
          rw [if_neg hfin, hp]
          dsimp only
          rw [hfind]
          rfl
        · refine Or.inl ?_
          rw [service_next_question.eq_def, hg]
          dsimp only
          rw [if_neg hfin, hp]
          dsimp only
          rw [hfind]

/-- `service_answer_question` either leaves the store unchanged or applies the
answer writes for the addressed (pending) GameQuestion of the addressed
game. -/
theorem service_answer_snd (db : DB) (choices : List Nat) (gid qid uid : Nat) :
    (service_answer_question db choices gid qid uid).2 = db ∨
    (∃ g gq score, get_game db gid uid = .ok g ∧
      get_game_question db gid qid = .ok gq ∧
      gq.skipped = false ∧ gq.answered = false ∧
      (service_answer_question db choices gid qid uid).2 =
        applyAnswerWrites db g.id gq.id score choices) := by
  rcases hg : get_game db gid uid with e | game
  · rw [service_answer_question.eq_def, hg]
    exact Or.inl rfl
  · rcases hgq : get_game_question db gid qid with e | gq
    · rw [service_answer_question.eq_def, hg]
      dsimp only
      rw [hgq]
      exact Or.inl rfl
    · rcases hchk : check_question_answered_or_skipped gq with e | un
      · rw [service_answer_question.eq_def, hg]
        dsimp only
        rw [hgq]
        dsimp only
        rw [hchk]
        exact Or.inl rfl
      · obtain ⟨hsk, han⟩ := check_ok_facts hchk
        rcases hq : get_question db gq.question_id with e | question
        · rw [service_answer_question.eq_def, hg]
          dsimp only
          rw [hgq]
          dsimp only
          rw [hchk]
          dsimp only
          rw [hq]
          exact Or.inl rfl
        · by_cases hcard : question.type = SINGLE_ANSWER ∧ choices.length > 1
          · rw [service_answer_question.eq_def, hg]
            dsimp only
            rw [hgq]
            dsimp only
            rw [hchk]
            dsimp only
            rw [hq]
            dsimp only
            rw [if_pos hcard]
            exact Or.inl rfl
          · rcases hsc : calculate_answer_score choices question.answers question.type
              with e | score
            · rw [service_answer_question.eq_def, hg]
              dsimp only
              rw [hgq]
              dsimp only
              rw [hchk]
              dsimp only
              rw [hq]
              dsimp only
              rw [if_neg hcard, hsc]
              exact Or.inl rfl
            · refine Or.inr ⟨game, gq, score, rfl, rfl, hsk, han, ?_⟩
              rw [service_answer_question.eq_def, hg]
              dsimp only
              rw [hgq]
              dsimp only
              rw [hchk]
              dsimp only
              rw [hq]
              dsimp only
              rw [if_neg hcard, hsc]
              rfl

/-- `service_skip_question` either leaves the store unchanged or applies the
skip writes for the addressed (pending) GameQuestion of the addressed game. -/
theorem service_skip_snd (db : DB) (gid qid uid : Nat) :
    (service_skip_question db gid qid uid).2 = db ∨
    (∃ g gq, get_game db gid uid = .ok g ∧
      get_game_question db gid qid = .ok gq ∧
      gq.skipped = false ∧ gq.answered = false ∧
      (service_skip_question db gid qid uid).2 = applySkipWrites db g.id gq.id) := by
  rcases hg : get_game db gid uid with e | game
  · rw [service_skip_question.eq_def, hg]
    exact Or.inl rfl
  · rcases hgq : get_game_question db gid qid with e | gq
    · rw [service_skip_question.eq_def, hg]
      dsimp only
      rw [hgq]
      exact Or.inl rfl
    · rcases hchk : check_question_answered_or_skipped gq with e | un
      · rw [service_skip_question.eq_def, hg]
        dsimp only
        rw [hgq]
        dsimp only
        rw [hchk]
        exact Or.inl rfl
      · obtain ⟨hsk, han⟩ := check_ok_facts hchk
        refine Or.inr ⟨game, gq, rfl, rfl, hsk, han, ?_⟩
        rw [service_skip_question.eq_def, hg]
        dsimp only
        rw [hgq]
        dsimp only
        rw [hchk]
        rfl

end OpCharacterizations

section InvPreservation

/-- `applyStartWrites` preserves the engine invariant: the appended game is
fresh, unfinished and has no GameQuestions. -/
theorem inv_applyStartWrites (db : DB) (q u : Nat) (hI : Inv db) :
    Inv (applyStartWrites db q u) := by
  obtain ⟨gn, gl, qn, ql, qgl, mx, fe, ro, qe⟩ := hI
  refine ⟨?_, ?_, qn, ?_, ?_, mx, ?_, ?_, qe⟩
  · show ((db.games ++ [(⟨db.nextId, u, q, false, 0, 0⟩ : Game)]).map Game.id).Nodup
    rw [List.map_append]
    refine gn.append (List.nodup_singleton _) ?_
    intro x hx hx2
    simp only [List.map_cons, List.map_nil, List.mem_singleton] at hx2
    obtain ⟨g0, hg0, hg0id⟩ := List.mem_map.mp hx
    have := gl g0 hg0
    omega
  · intro g hg
    show g.id < db.nextId + 1
    rcases List.mem_append.mp hg with h | h
    · exact Nat.lt_succ_of_lt (gl g h)
    · simp only [List.mem_singleton] at h
      subst h
      exact Nat.lt_succ_self _
  · intro gq hgq
    exact Nat.lt_succ_of_lt (ql gq hgq)
  · intro gq hgq
    exact Nat.lt_succ_of_lt (qgl gq hgq)
  · intro g hg hfin
    rcases List.mem_append.mp hg with h | h
    · exact fe g h hfin
    · simp only [List.mem_singleton] at h
      subst h
      cases hfin
  · intro g hg
    rcases List.mem_append.mp hg with h | h
    · exact ro g h
    · simp only [List.mem_singleton] at h
      subst h
      show resolvedCount db db.nextId = 0
      simp only [resolvedCount, List.countP_eq_zero]
      intro gq hgq hx
      rw [Bool.and_eq_true, beq_iff_eq] at hx
      exact absurd hx.1 (Nat.ne_of_lt (qgl gq hgq))

/-- `setFinished` on a game whose quiz is exhausted preserves the invariant. -/
theorem inv_setFinished (db : DB) (g : Game) (hI : Inv db) (hg : g ∈ db.games)
    (hoff : numQuestions db g.quiz_id ≤ g.offset) : Inv (setFinished db g.id) := by
  obtain ⟨gn, gl, qn, ql, qgl, mx, fe, ro, qe⟩ := hI
  have hid : ∀ x : Game, (updGameFinish g.id x).id = x.id := by
    intro x
    rw [updGameFinish]
    split <;> rfl
  have hoffp : ∀ x : Game, (updGameFinish g.id x).offset = x.offset := by
    intro x
    rw [updGameFinish]
    split <;> rfl
  refine ⟨?_, ?_, qn, ql, qgl, mx, ?_, ?_, qe⟩
  · show ((db.games.map (updGameFinish g.id)).map Game.id).Nodup
    rw [List.map_map]
    have h1 : db.games.map (Game.id ∘ updGameFinish g.id) = db.games.map Game.id :=
      List.map_congr_left (fun x _ => hid x)
    rw [h1]
    exact gn
  · intro x' hx'
    obtain ⟨x, hx, rfl⟩ := List.mem_map.mp hx'
    rw [hid x]
    exact gl x hx
  · intro x' hx' hfin
    obtain ⟨x, hx, rfl⟩ := List.mem_map.mp hx'
    by_cases hxe : (x.id == g.id) = true
    · have hxg : x = g := List.inj_on_of_nodup_map gn hx hg (beq_iff_eq.mp hxe)
      subst hxg
      show numQuestions db (updGameFinish x.id x).quiz_id ≤ (updGameFinish x.id x).offset
      have hq2 : (updGameFinish x.id x).quiz_id = x.quiz_id := by
        rw [updGameFinish]
        split <;> rfl
      rw [hq2, hoffp x]
      exact hoff
    · rw [updGameFinish, if_neg hxe] at hfin ⊢
      exact fe x hx hfin
  · intro x' hx'
    obtain ⟨x, hx, rfl⟩ := List.mem_map.mp hx'
    show resolvedCount (setFinished db g.id) (updGameFinish g.id x).id =
      (updGameFinish g.id x).offset
    rw [hid x, hoffp x]
    exact ro x hx

/-- `applyNextWrites` preserves the invariant: the appended GameQuestion is
fresh, pending, attached to an existing game and an existing question. -/
theorem inv_applyNextWrites (db : DB) (gid : Nat) (qrow : Question) (hI : Inv db)
    (hgid : gid < db.nextId) (hq : qrow ∈ db.questions) :
    Inv (applyNextWrites db gid qrow.id) := by
  obtain ⟨gn, gl, qn, ql, qgl, mx, fe, ro, qe⟩ := hI
  refine ⟨gn, ?_, ?_, ?_, ?_, ?_, fe, ?_, ?_⟩
  · intro g hg
    exact Nat.lt_succ_of_lt (gl g hg)
  · show ((db.gameQuestions ++
      [(⟨db.nextId, false, false, 0, qrow.id, gid⟩ : GameQuestion)]).map
      GameQuestion.id).Nodup
    rw [List.map_append]
    refine qn.append (List.nodup_singleton _) ?_
    intro x hx hx2
    simp only [List.map_cons, List.map_nil, List.mem_singleton] at hx2
    obtain ⟨y, hy, hyid⟩ := List.mem_map.mp hx
    have := ql y hy
    omega
  · intro gq hgq
    rcases List.mem_append.mp hgq with h | h
    · exact Nat.lt_succ_of_lt (ql gq h)
    · simp only [List.mem_singleton] at h
      subst h
      exact Nat.lt_succ_self _
  · intro gq hgq
    rcases List.mem_append.mp hgq with h | h
    · exact Nat.lt_succ_of_lt (qgl gq h)
    · simp only [List.mem_singleton] at h
      subst h
      exact Nat.lt_succ_of_lt hgid
  · intro gq hgq
    rcases List.mem_append.mp hgq with h | h
    · exact mx gq h
    · simp only [List.mem_singleton] at h
      subst h
      rintro ⟨h1, _⟩
      cases h1
  · intro g hg
    show (db.gameQuestions ++
      [(⟨db.nextId, false, false, 0, qrow.id, gid⟩ : GameQuestion)]).countP
      (fun (gq : GameQuestion) => gq.game_id == g.id && (gq.answered || gq.skipped)) =
      g.offset
    rw [List.countP_append]
    have h0 : List.countP
        (fun gq => gq.game_id == g.id && (gq.answered || gq.skipped))
        [(⟨db.nextId, false, false, 0, qrow.id, gid⟩ : GameQuestion)] = 0 := by
      simp [List.countP_cons]
    rw [h0, Nat.add_zero]
    exact ro g hg
  · intro gq hgq
    rcases List.mem_append.mp hgq with h | h
    · exact qe gq h
    · simp only [List.mem_singleton] at h
      subst h
      exact ⟨qrow, hq, rfl⟩

/-- The resolved-question predicate used by `resolvedCount`. -/
def resolvedPred (game_id : Nat) (gq : GameQuestion) : Bool :=
  gq.game_id == game_id && (gq.answered || gq.skipped)

/-- `resolvedCount` unfolded onto `resolvedPred`. -/
theorem resolvedCount_eq (db : DB) (game_id : Nat) :
    resolvedCount db game_id = db.gameQuestions.countP (resolvedPred game_id) :=
  rfl

/-- `applyAnswerWrites` preserves the invariant: the addressed game gains one
offset and the addressed pending GameQuestion becomes answered. -/
theorem inv_applyAnswerWrites (db : DB) (g : Game) (gq : GameQuestion)
    (score : ℚ) (choices : List Nat) (hI : Inv db)
    (hgmem : g ∈ db.games) (hgqmem : gq ∈ db.gameQuestions)
    (hlink : gq.game_id = g.id) (hsk : gq.skipped = false)
    (han : gq.answered = false) :
    Inv (applyAnswerWrites db g.id gq.id score choices) := by
  obtain ⟨gn, gl, qn, ql, qgl, mx, fe, ro, qe⟩ := hI
  have hgid : ∀ x : Game, (updGameOnAnswer g.id score x).id = x.id := by
    intro x
    rw [updGameOnAnswer]
    split <;> rfl
  have hgfin : ∀ x : Game, (updGameOnAnswer g.id score x).finished = x.finished := by
    intro x
    rw [updGameOnAnswer]
    split <;> rfl
  have hgquiz : ∀ x : Game, (updGameOnAnswer g.id score x).quiz_id = x.quiz_id := by
    intro x
    rw [updGameOnAnswer]
    split <;> rfl
  have hgqid : ∀ x : GameQuestion, (updGqOnAnswer gq.id score x).id = x.id := by
    intro x
    rw [updGqOnAnswer]
    split <;> rfl
  have hgqgame : ∀ x : GameQuestion,
      (updGqOnAnswer gq.id score x).game_id = x.game_id := by
    intro x
    rw [updGqOnAnswer]
    split <;> rfl
  have hgqq : ∀ x : GameQuestion,
      (updGqOnAnswer gq.id score x).question_id = x.question_id := by
    intro x
    rw [updGqOnAnswer]
    split <;> rfl
  have hfother : ∀ y : GameQuestion, y.id ≠ gq.id → updGqOnAnswer gq.id score y = y := by
    intro y hy
    rw [updGqOnAnswer, if_neg (fun hc => hy (beq_iff_eq.mp hc))]
  refine ⟨?_, ?_, ?_, ?_, ?_, ?_, ?_, ?_, ?_⟩
  · show ((db.games.map (updGameOnAnswer g.id score)).map Game.id).Nodup
    rw [List.map_map]
    have h1 : db.games.map (Game.id ∘ updGameOnAnswer g.id score) =
        db.games.map Game.id := List.map_congr_left (fun x _ => hgid x)
    rw [h1]
    exact gn
  · intro x' hx'
    obtain ⟨x, hx, rfl⟩ := List.mem_map.mp hx'
    rw [hgid x]
    exact gl x hx
  · show ((db.gameQuestions.map (updGqOnAnswer gq.id score)).map
      GameQuestion.id).Nodup
    rw [List.map_map]
    have h1 : db.gameQuestions.map (GameQuestion.id ∘ updGqOnAnswer gq.id score) =
        db.gameQuestions.map GameQuestion.id :=
      List.map_congr_left (fun x _ => hgqid x)
    rw [h1]
    exact qn
  · intro x' hx'
    obtain ⟨x, hx, rfl⟩ := List.mem_map.mp hx'
    rw [hgqid x]
    exact ql x hx
  · intro x' hx'
    obtain ⟨x, hx, rfl⟩ := List.mem_map.mp hx'
    rw [hgqgame x]
    exact qgl x hx
  · intro x' hx'
    obtain ⟨x, hx, rfl⟩ := List.mem_map.mp hx'
    by_cases hxe : (x.id == gq.id) = true
    · have hxq : x = gq := List.inj_on_of_nodup_map qn hx hgqmem (beq_iff_eq.mp hxe)
      subst hxq
      rw [updGqOnAnswer, if_pos hxe]
      rintro ⟨_, h2⟩
      have h3 : x.skipped = true := h2
      rw [hsk] at h3
      cases h3
    · rw [updGqOnAnswer, if_neg hxe]
      exact mx x hx
  · intro x' hx' hfin
    obtain ⟨x, hx, rfl⟩ := List.mem_map.mp hx'
    rw [hgfin x] at hfin
    have hle := fe x hx hfin
    show numQuestions db (updGameOnAnswer g.id score x).quiz_id ≤
      (updGameOnAnswer g.id score x).offset
    rw [hgquiz x]
    have : x.offset ≤ (updGameOnAnswer g.id score x).offset := by
      rw [updGameOnAnswer]
      split
      · exact Nat.le_succ _
      · exact Nat.le_refl _
    omega
  · intro x' hx'
    obtain ⟨x, hx, rfl⟩ := List.mem_map.mp hx'
    show resolvedCount (applyAnswerWrites db g.id gq.id score choices)
      (updGameOnAnswer g.id score x).id = (updGameOnAnswer g.id score x).offset
    rw [resolvedCount_eq, hgid x]
    show (db.gameQuestions.map (updGqOnAnswer gq.id score)).countP
      (resolvedPred x.id) = (updGameOnAnswer g.id score x).offset
    by_cases hxe : (x.id == g.id) = true
    · have hxg : x = g := List.inj_on_of_nodup_map gn hx hgmem (beq_iff_eq.mp hxe)
      subst hxg
      have key := countP_map_single_update db.gameQuestions GameQuestion.id
        (updGqOnAnswer gq.id score) gq.id gq (resolvedPred x.id) qn hfother hgqmem rfl
      have hpred1 : resolvedPred x.id gq = false := by
        rw [resolvedPred, han, hsk]
        simp
      have hpred2 : resolvedPred x.id (updGqOnAnswer gq.id score gq) = true := by
        rw [resolvedPred, updGqOnAnswer, if_pos (beq_self_eq_true gq.id)]
        show (gq.game_id == x.id && (true || gq.skipped)) = true
        rw [hlink]
        simp
      rw [hpred1, hpred2] at key
      rw [if_neg (by decide : ¬(false = true)), if_pos (rfl : true = true)] at key
      have hoffx : (updGameOnAnswer x.id score x).offset = x.offset + 1 := by
        rw [updGameOnAnswer, if_pos hxe]
      rw [hoffx]
      have ro2 := ro x hx
      rw [resolvedCount_eq] at ro2
      omega
    · have hinv : (db.gameQuestions.map (updGqOnAnswer gq.id score)).countP
          (resolvedPred x.id) = db.gameQuestions.countP (resolvedPred x.id) := by
        apply countP_map_invariant
        intro y hy
        by_cases hye : (y.id == gq.id) = true
        · have hyq : y = gq := List.inj_on_of_nodup_map qn hy hgqmem (beq_iff_eq.mp hye)
          have hne : (y.game_id == x.id) = false := by
            rw [beq_eq_false_iff_ne, hyq, hlink]
            intro hgx
            exact hxe (beq_iff_eq.mpr hgx.symm)
          have hga : ((updGqOnAnswer gq.id score y).game_id == x.id) = false := by
            rw [hgqgame y]
            exact hne
          rw [resolvedPred, resolvedPred, hne, hga]
          simp
        · rw [hfother y (fun hc => hye (beq_iff_eq.mpr hc))]
      rw [hinv]
      have hoffx : (updGameOnAnswer g.id score x).offset = x.offset := by
        rw [updGameOnAnswer, if_neg hxe]
      rw [hoffx]
      have ro2 := ro x hx
      rw [resolvedCount_eq] at ro2
      exact ro2
  · intro x' hx'
    obtain ⟨x, hx, rfl⟩ := List.mem_map.mp hx'
    rw [hgqq x]
    exact qe x hx

/-- `applySkipWrites` preserves the invariant: the addressed game gains one
offset and the addressed pending GameQuestion becomes skipped. -/
theorem inv_applySkipWrites (db : DB) (g : Game) (gq : GameQuestion) (hI : Inv db)
    (hgmem : g ∈ db.games) (hgqmem : gq ∈ db.gameQuestions)
    (hlink : gq.game_id = g.id) (hsk : gq.skipped = false)
    (han : gq.answered = false) :
    Inv (applySkipWrites db g.id gq.id) := by
  obtain ⟨gn, gl, qn, ql, qgl, mx, fe, ro, qe⟩ := hI
  have hgid : ∀ x : Game, (updGameOnSkip g.id x).id = x.id := by
    intro x
    rw [updGameOnSkip]
    split <;> rfl
  have hgfin : ∀ x : Game, (updGameOnSkip g.id x).finished = x.finished := by
    intro x
    rw [updGameOnSkip]
    split <;> rfl
  have hgquiz : ∀ x : Game, (updGameOnSkip g.id x).quiz_id = x.quiz_id := by
    intro x
    rw [updGameOnSkip]
    split <;> rfl
  have hgqid : ∀ x : GameQuestion, (updGqOnSkip gq.id x).id = x.id := by
    intro x
    rw [updGqOnSkip]
    split <;> rfl
  have hgqgame : ∀ x : GameQuestion, (updGqOnSkip gq.id x).game_id = x.game_id := by
    intro x
    rw [updGqOnSkip]
    split <;> rfl
  have hgqq : ∀ x : GameQuestion,
      (updGqOnSkip gq.id x).question_id = x.question_id := by
    intro x
    rw [updGqOnSkip]
    split <;> rfl
  have hfother : ∀ y : GameQuestion, y.id ≠ gq.id → updGqOnSkip gq.id y = y := by
    intro y hy
    rw [updGqOnSkip, if_neg (fun hc => hy (beq_iff_eq.mp hc))]
  refine ⟨?_, ?_, ?_, ?_, ?_, ?_, ?_, ?_, ?_⟩
  · show ((db.games.map (updGameOnSkip g.id)).map Game.id).Nodup
    rw [List.map_map]
    have h1 : db.games.map (Game.id ∘ updGameOnSkip g.id) = db.games.map Game.id :=
      List.map_congr_left (fun x _ => hgid x)
    rw [h1]
    exact gn
  · intro x' hx'
    obtain ⟨x, hx, rfl⟩ := List.mem_map.mp hx'
    rw [hgid x]
    exact gl x hx
  · show ((db.gameQuestions.map (updGqOnSkip gq.id)).map GameQuestion.id).Nodup
    rw [List.map_map]
    have h1 : db.gameQuestions.map (GameQuestion.id ∘ updGqOnSkip gq.id) =
        db.gameQuestions.map GameQuestion.id :=
      List.map_congr_left (fun x _ => hgqid x)
    rw [h1]
    exact qn
  · intro x' hx'
    obtain ⟨x, hx, rfl⟩ := List.mem_map.mp hx'
    rw [hgqid x]
    exact ql x hx
  · intro x' hx'
    obtain ⟨x, hx, rfl⟩ := List.mem_map.mp hx'
    rw [hgqgame x]
    exact qgl x hx
  · intro x' hx'
    obtain ⟨x, hx, rfl⟩ := List.mem_map.mp hx'
    by_cases hxe : (x.id == gq.id) = true
    · have hxq : x = gq := List.inj_on_of_nodup_map qn hx hgqmem (beq_iff_eq.mp hxe)
      subst hxq
      rw [updGqOnSkip, if_pos hxe]
      rintro ⟨h1, _⟩
      have h3 : x.answered = true := h1
      rw [han] at h3
      cases h3
    · rw [updGqOnSkip, if_neg hxe]
      exact mx x hx
  · intro x' hx' hfin
    obtain ⟨x, hx, rfl⟩ := List.mem_map.mp hx'
    rw [hgfin x] at hfin
    have hle := fe x hx hfin
    show numQuestions db (updGameOnSkip g.id x).quiz_id ≤ (updGameOnSkip g.id x).offset
    rw [hgquiz x]
    have : x.offset ≤ (updGameOnSkip g.id x).offset := by
      rw [updGameOnSkip]
      split
      · exact Nat.le_succ _
      · exact Nat.le_refl _
    omega
  · intro x' hx'
    obtain ⟨x, hx, rfl⟩ := List.mem_map.mp hx'
    show resolvedCount (applySkipWrites db g.id gq.id) (updGameOnSkip g.id x).id =
      (updGameOnSkip g.id x).offset
    rw [resolvedCount_eq, hgid x]
    show (db.gameQuestions.map (updGqOnSkip gq.id)).countP (resolvedPred x.id) =
      (updGameOnSkip g.id x).offset
    by_cases hxe : (x.id == g.id) = true
    · have hxg : x = g := List.inj_on_of_nodup_map gn hx hgmem (beq_iff_eq.mp hxe)
      subst hxg
      have key := countP_map_single_update db.gameQuestions GameQuestion.id
        (updGqOnSkip gq.id) gq.id gq (resolvedPred x.id) qn hfother hgqmem rfl
      have hpred1 : resolvedPred x.id gq = false := by
        rw [resolvedPred, han, hsk]
        simp
      have hpred2 : resolvedPred x.id (updGqOnSkip gq.id gq) = true := by
        rw [resolvedPred, updGqOnSkip, if_pos (beq_self_eq_true gq.id)]
        show (gq.game_id == x.id && (gq.answered || true)) = true
        rw [hlink]
        simp
      rw [hpred1, hpred2] at key
      rw [if_neg (by decide : ¬(false = true)), if_pos (rfl : true = true)] at key
      have hoffx : (updGameOnSkip x.id x).offset = x.offset + 1 := by
        rw [updGameOnSkip, if_pos hxe]
      rw [hoffx]
      have ro2 := ro x hx
      rw [resolvedCount_eq] at ro2
      omega
    · have hinv : (db.gameQuestions.map (updGqOnSkip gq.id)).countP
          (resolvedPred x.id) = db.gameQuestions.countP (resolvedPred x.id) := by
        apply countP_map_invariant
        intro y hy
        by_cases hye : (y.id == gq.id) = true
        · have hyq : y = gq := List.inj_on_of_nodup_map qn hy hgqmem (beq_iff_eq.mp hye)
          have hne : (y.game_id == x.id) = false := by
            rw [beq_eq_false_iff_ne, hyq, hlink]
            intro hgx
            exact hxe (beq_iff_eq.mpr hgx.symm)
          have hga : ((updGqOnSkip gq.id y).game_id == x.id) = false := by
            rw [hgqgame y]
            exact hne
          rw [resolvedPred, resolvedPred, hne, hga]
          simp
        · rw [hfother y (fun hc => hye (beq_iff_eq.mpr hc))]
      rw [hinv]
      have hoffx : (updGameOnSkip g.id x).offset = x.offset := by
        rw [updGameOnSkip, if_neg hxe]
      rw [hoffx]
      have ro2 := ro x hx
      rw [resolvedCount_eq] at ro2
      exact ro2
  · intro x' hx'
    obtain ⟨x, hx, rfl⟩ := List.mem_map.mp hx'
    rw [hgqq x]
    exact qe x hx

/-- Every engine operation preserves the invariant. -/
theorem step_inv {db db' : DB} (hI : Inv db) (hs : Step db db') : Inv db' := by
  cases hs with
  | start q u =>
    rcases service_start_snd db q u with h | h
    · rw [h]
      exact hI
    · rw [h]
      exact inv_applyStartWrites db q u hI
  | next gid uid =>
    rcases service_next_snd db gid uid with h | ⟨g, hg, hfin, hp, h⟩ |
      ⟨g, qrow, hg, hfin, hp, h⟩
    · rw [h]
      exact hI
    · rw [h]
      obtain ⟨hmem, hid, huid⟩ := get_game_ok_facts hg
      exact inv_setFinished db g hI hmem (paginate_none_facts hp)
    · rw [h]
      obtain ⟨hmem, hid, huid⟩ := get_game_ok_facts hg
      obtain ⟨hqmem, hquiz⟩ := paginate_some_facts hp
      exact inv_applyNextWrites db gid qrow hI (hid ▸ hI.games_lt g hmem) hqmem
  | answer choices gid qid uid =>
    rcases service_answer_snd db choices gid qid uid with h |
      ⟨g, gq, score, hg, hgq, hsk, han, h⟩
    · rw [h]
      exact hI
    · rw [h]
      obtain ⟨hgmem, hgid, hguid⟩ := get_game_ok_facts hg
      obtain ⟨hqmem, hqid, hqgame⟩ := get_game_question_ok_facts hgq
      exact inv_applyAnswerWrites db g gq score choices hI hgmem hqmem
        (by rw [hqgame, hgid]) hsk han
  | skip gid qid uid =>
    rcases service_skip_snd db gid qid uid with h | ⟨g, gq, hg, hgq, hsk, han, h⟩
    · rw [h]
      exact hI
    · rw [h]
      obtain ⟨hgmem, hgid, hguid⟩ := get_game_ok_facts hg
      obtain ⟨hqmem, hqid, hqgame⟩ := get_game_question_ok_facts hgq
      exact inv_applySkipWrites db g gq hI hgmem hqmem (by rw [hqgame, hgid]) hsk han

/-- Every reachable store satisfies the engine invariant. -/
theorem reachable_inv {db : DB} (h : Reachable db) : Inv db := by
  induction h with
  | init db hg hgq hga =>
    refine ⟨?_, ?_, ?_, ?_, ?_, ?_, ?_, ?_, ?_⟩ <;> simp [hg, hgq]
  | step db db' hr hs ih => exact step_inv ih hs

end InvPreservation

section ClaimHelpers

/-- `updGameFinish` preserves the game id. -/
theorem updGameFinish_id (t : Nat) (x : Game) : (updGameFinish t x).id = x.id := by
  rw [updGameFinish]
  split <;> rfl

/-- `updGameFinish` preserves the offset: the exhaustion transition changes
only the finished flag. -/
theorem updGameFinish_offset (t : Nat) (x : Game) :
    (updGameFinish t x).offset = x.offset := by
  rw [updGameFinish]
  split <;> rfl

/-- `updGameFinish` never unsets the finished flag. -/
theorem updGameFinish_finished_mono (t : Nat) (x : Game) (h : x.finished = true) :
    (updGameFinish t x).finished = true := by
  rw [updGameFinish]
  split
  · rfl
  · exact h

/-- `updGameOnAnswer` preserves the game id. -/
theorem updGameOnAnswer_id (t : Nat) (s : ℚ) (x : Game) :
    (updGameOnAnswer t s x).id = x.id := by
  rw [updGameOnAnswer]
  split <;> rfl

/-- `updGameOnAnswer` preserves the finished flag: Answer never finishes a
game. -/
theorem updGameOnAnswer_finished (t : Nat) (s : ℚ) (x : Game) :
    (updGameOnAnswer t s x).finished = x.finished := by
  rw [updGameOnAnswer]
  split <;> rfl

/-- `updGameOnSkip` preserves the game id. -/
theorem updGameOnSkip_id (t : Nat) (x : Game) : (updGameOnSkip t x).id = x.id := by
  rw [updGameOnSkip]
  split <;> rfl

/-- `updGameOnSkip` preserves the finished flag: Skip never finishes a game. -/
theorem updGameOnSkip_finished (t : Nat) (x : Game) :
    (updGameOnSkip t x).finished = x.finished := by
  rw [updGameOnSkip]
  split <;> rfl

/-- `find?` returns the unique satisfying element. -/
theorem find?_eq_of_unique_sat {α : Type} (l : List α) (p : α → Bool) (x : α)
    (hx : x ∈ l) (hpx : p x = true) (huniq : ∀ y ∈ l, p y = true → y = x) :
    l.find? p = some x := by
  induction l with
  | nil => cases hx
  | cons a t ih =>
    by_cases hpa : p a = true
    · rw [List.find?_cons_of_pos _ hpa, huniq a (List.mem_cons_self _ _) hpa]
    · rw [List.find?_cons_of_neg _ hpa]
      rcases List.mem_cons.mp hx with rfl | hx'
      · exact absurd hpx hpa
      · exact ih hx' (fun y hy hpy => huniq y (List.mem_cons_of_mem _ hy) hpy)

/-- `filter` returns exactly the unique satisfying element when keys are
unique. -/
theorem filter_eq_singleton_of_unique {α : Type} (l : List α) (key : α → Nat)
    (hnd : (l.map key).Nodup) (p : α → Bool) (x : α) (hx : x ∈ l)
    (hpx : p x = true) (huniq : ∀ y ∈ l, p y = true → y = x) :
    l.filter p = [x] := by
  induction l with
  | nil => cases hx
  | cons a t ih =>
    rw [List.map_cons] at hnd
    have hnd' := List.nodup_cons.mp hnd
    by_cases hpa : p a = true
    · have hax : a = x := huniq a (List.mem_cons_self _ _) hpa
      rw [List.filter_cons_of_pos hpa, hax]
      have htail : t.filter p = [] := by
        rw [List.filter_eq_nil_iff]
        intro y hy hpy
        have hyx : y = x := huniq y (List.mem_cons_of_mem _ hy) hpy
        apply hnd'.1
        rw [hax, ← hyx]
        exact List.mem_map_of_mem key hy
      rw [htail]
    · rw [List.filter_cons_of_neg hpa]
      rcases List.mem_cons.mp hx with rfl | hx'
      · exact absurd hpx hpa
      · exact ih hnd'.2 hx' (fun y hy hpy => huniq y (List.mem_cons_of_mem _ hy) hpy)

/-- A count under a stronger predicate is at most the count under a weaker
one. -/
theorem countP_le_of_imp {α : Type} (l : List α) (p q : α → Bool)
    (h : ∀ a ∈ l, p a = true → q a = true) : l.countP p ≤ l.countP q := by
  induction l with
  | nil => exact Nat.le_refl _
  | cons a t ih =>
    rw [List.countP_cons, List.countP_cons]
    have ht := ih (fun y hy hpy => h y (List.mem_cons_of_mem _ hy) hpy)
    by_cases hpa : p a = true
    · rw [if_pos hpa, if_pos (h a (List.mem_cons_self _ _) hpa)]
      omega
    · rw [if_neg hpa]
      by_cases hqa : q a = true
      · rw [if_pos hqa]
        omega
      · rw [if_neg hqa]
        omega

/-- `filterMap` with an everywhere-defined function preserves length. -/
theorem length_filterMap_of_isSome {α β : Type} (l : List α) (f : α → Option β)
    (h : ∀ x ∈ l, (f x).isSome = true) : (l.filterMap f).length = l.length := by
  induction l with
  | nil => rfl
  | cons a t ih =>
    rcases hfa : f a with _ | b
    · have := h a (List.mem_cons_self _ _)
      rw [hfa] at this
      cases this
    · rw [List.filterMap_cons, hfa, List.length_cons, List.length_cons,
        ih (fun y hy => h y (List.mem_cons_of_mem _ hy))]

end ClaimHelpers

section FinishClaims

/-- C5 counterexample: on a quiz with N = 1 question, performing the single
Answer call succeeds but leaves `finished = false` (offset becomes 1); no
Answer/Skip call ever writes the finished flag, which is set only by the
following NextQuestion. -/
theorem answer_does_not_finish_game :
    (service_answer_question answerDB [1] 0 1 7).1 = .ok () ∧
    (service_answer_question answerDB [1] 0 1 7).2.games =
      [⟨0, 7, 100, false, 1, 1⟩] := by
  constructor
  · with_unfolding_all rfl
  · with_unfolding_all rfl

/-- C5 (amended): Answer and Skip never change any game's finished flag (so N
resolutions leave the game unfinished); the NextQuestion call that finds the
sequencer exhausted on an unfinished game marks it finished — changing no
offset — and fails with the AlreadyFinished error, as does NextQuestion on an
already finished game; and no engine operation ever takes a finished game back
to unfinished. -/
theorem finished_transition_behavior :
    (∀ (db : DB) (choices : List Nat) (gid qid uid : Nat) (g' : Game),
      g' ∈ (service_answer_question db choices gid qid uid).2.games →
      ∃ g ∈ db.games, g'.id = g.id ∧ g'.finished = g.finished) ∧
    (∀ (db : DB) (gid qid uid : Nat) (g' : Game),
      g' ∈ (service_skip_question db gid qid uid).2.games →
      ∃ g ∈ db.games, g'.id = g.id ∧ g'.finished = g.finished) ∧
    (∀ (db : DB) (gid uid : Nat) (g : Game),
      get_game db gid uid = .ok g → g.finished = false →
      paginate_questions db g.quiz_id g.offset = none →
      service_next_question db gid uid =
        (.error (.http 400 "Game is already finished"), setFinished db g.id)) ∧
    (∀ (game_id : Nat) (x : Game), (updGameFinish game_id x).offset = x.offset) ∧
    (∀ (db : DB) (gid uid : Nat) (g : Game),
      get_game db gid uid = .ok g → g.finished = true →
      service_next_question db gid uid =
        (.error (.http 400 "Game is already finished"), db)) ∧
    (∀ (db db' : DB), Inv db → Step db db' →
      ∀ g ∈ db.games, g.finished = true →
      ∀ g' ∈ db'.games, g'.id = g.id → g'.finished = true) := by
  refine ⟨?_, ?_, ?_, updGameFinish_offset, ?_, ?_⟩
  · intro db choices gid qid uid g' hg'
    rcases service_answer_snd db choices gid qid uid with h |
      ⟨g0, gq0, score, hg0, hgq0, hsk, han, h⟩
    · rw [h] at hg'
      exact ⟨g', hg', rfl, rfl⟩
    · rw [h] at hg'
      obtain ⟨x, hx, rfl⟩ := List.mem_map.mp hg'
      exact ⟨x, hx, updGameOnAnswer_id _ _ x, updGameOnAnswer_finished _ _ x⟩
  · intro db gid qid uid g' hg'
    rcases service_skip_snd db gid qid uid with h | ⟨g0, gq0, hg0, hgq0, hsk, han, h⟩
    · rw [h] at hg'
      exact ⟨g', hg', rfl, rfl⟩
    · rw [h] at hg'
      obtain ⟨x, hx, rfl⟩ := List.mem_map.mp hg'
      exact ⟨x, hx, updGameOnSkip_id _ x, updGameOnSkip_finished _ x⟩
  · intro db gid uid g hget hfin hpag
    rw [service_next_question.eq_def, hget]
    dsimp only
    rw [if_neg (fun hc => by rw [hfin] at hc; cases hc), hpag]
  · intro db gid uid g hget hfin
    rw [service_next_question.eq_def, hget]
    dsimp only
    rw [if_pos hfin]
  · intro db db' hI hs g hgmem hfin g' hg' hid
    have inj := List.inj_on_of_nodup_map hI.games_nodup
    cases hs with
    | start q u =>
      rcases service_start_snd db q u with h | h
      · rw [h] at hg'
        rw [inj hg' hgmem hid]
        exact hfin
      · rw [h] at hg'
        rcases List.mem_append.mp hg' with h2 | h2
        · rw [inj h2 hgmem hid]
          exact hfin
        · simp only [List.mem_singleton] at h2
          subst h2
          dsimp only at hid
          have := hI.games_lt g hgmem
          omega
    | next gid2 uid2 =>
      rcases service_next_snd db gid2 uid2 with h | ⟨g0, hg0, hf0, hp0, h⟩ |
        ⟨g0, q0, hg0, hf0, hp0, h⟩
      · rw [h] at hg'
        rw [inj hg' hgmem hid]
        exact hfin
      · rw [h] at hg'
        obtain ⟨x, hx, rfl⟩ := List.mem_map.mp hg'
        rw [updGameFinish_id] at hid
        exact updGameFinish_finished_mono _ x (by rw [inj hx hgmem hid]; exact hfin)
      · rw [h] at hg'
        rw [inj hg' hgmem hid]
        exact hfin
    | answer choices gid2 qid2 uid2 =>
      rcases service_answer_snd db choices gid2 qid2 uid2 with h |
        ⟨g0, gq0, score, hg0, hgq0, hsk, han, h⟩
      · rw [h] at hg'
        rw [inj hg' hgmem hid]
        exact hfin
      · rw [h] at hg'
        obtain ⟨x, hx, rfl⟩ := List.mem_map.mp hg'
        rw [updGameOnAnswer_id] at hid
        rw [updGameOnAnswer_finished, inj hx hgmem hid]
        exact hfin
    | skip gid2 qid2 uid2 =>
      rcases service_skip_snd db gid2 qid2 uid2 with h |
        ⟨g0, gq0, hg0, hgq0, hsk, han, h⟩
      · rw [h] at hg'
        rw [inj hg' hgmem hid]
        exact hfin
      · rw [h] at hg'
        obtain ⟨x, hx, rfl⟩ := List.mem_map.mp hg'
        rw [updGameOnSkip_id] at hid
        rw [updGameOnSkip_finished, inj hx hgmem hid]
        exact hfin

/-- C5 witness: after the single question of the fixture quiz is answered the
game is still unfinished with offset 1; the subsequent NextQuestion finds the
sequencer exhausted and transitions the game to finished with the
AlreadyFinished error. -/
theorem finished_transition_behavior_witness :
    service_next_question (service_answer_question answerDB [1] 0 1 7).2 0 7 =
      (.error (.http 400 "Game is already finished"),
       setFinished (service_answer_question answerDB [1] 0 1 7).2 0) :=
  finished_transition_behavior.2.2.1 (service_answer_question answerDB [1] 0 1 7).2
    0 7 ⟨0, 7, 100, false, 1, 1⟩ (by with_unfolding_all rfl) rfl
    (by with_unfolding_all rfl)

end FinishClaims

section WriteOnceClaim

/-- The spec's `AlreadyResolved` failure: the source raises it with one of two
detail strings depending on which flag is set. -/
def isAlreadyResolved (e : Err) : Prop :=
  e = .http 400 "Question already skipped" ∨ e = .http 400 "Question already answered"

/-- C6: in every reachable store no GameQuestion is both answered and skipped,
and the flags are write-once: an Answer or Skip addressed (within an existing
game of the caller) to a GameQuestion that is already answered or skipped
fails with the AlreadyResolved error and leaves the store unchanged. -/
theorem game_question_write_once :
    ∀ db : DB, Reachable db →
      (∀ gq ∈ db.gameQuestions, ¬(gq.answered = true ∧ gq.skipped = true)) ∧
      (∀ (gid uid : Nat) (choices : List Nat) (gq : GameQuestion) (g : Game),
        gq ∈ db.gameQuestions → gq.game_id = gid →
        (gq.answered = true ∨ gq.skipped = true) →
        get_game db gid uid = .ok g →
        (∃ e, isAlreadyResolved e ∧
          service_answer_question db choices gid gq.id uid = (.error e, db)) ∧
        (∃ e, isAlreadyResolved e ∧
          service_skip_question db gid gq.id uid = (.error e, db))) := by
  intro db hr
  have hI := reachable_inv hr
  refine ⟨hI.mutex, ?_⟩
  intro gid uid choices gq g hmem hgid hres hget
  have hfind : get_game_question db gid gq.id = .ok gq := by
    rw [get_game_question,
      find?_eq_of_unique_sat db.gameQuestions _ gq hmem ?_ ?_]
    · rw [Bool.and_eq_true, beq_iff_eq, beq_iff_eq]
      exact ⟨rfl, hgid⟩
    · intro y hy hpy
      rw [Bool.and_eq_true, beq_iff_eq, beq_iff_eq] at hpy
      exact List.inj_on_of_nodup_map hI.gqs_nodup hy hmem hpy.1
  have hchk : ∃ e, isAlreadyResolved e ∧
      check_question_answered_or_skipped gq = .error e := by
    by_cases hs2 : gq.skipped = true
    · refine ⟨.http 400 "Question already skipped", Or.inl rfl, ?_⟩
      rw [check_question_answered_or_skipped, if_pos hs2]
    · have ha2 : gq.answered = true := by
        rcases hres with h | h
        · exact h
        · exact absurd h hs2
      refine ⟨.http 400 "Question already answered", Or.inr rfl, ?_⟩
      rw [check_question_answered_or_skipped, if_neg hs2, if_pos ha2]
  obtain ⟨e, he, hchke⟩ := hchk
  constructor
  · refine ⟨e, he, ?_⟩
    rw [service_answer_question.eq_def, hget]
    dsimp only
    rw [hfind]
    dsimp only
    rw [hchke]
  · refine ⟨e, he, ?_⟩
    rw [service_skip_question.eq_def, hget]
    dsimp only
    rw [hfind]
    dsimp only
    rw [hchke]

/-- Catalog for the C6/C9 witness play-through: the published quiz and its
single question, no play state, fresh ids from 0. -/
def traceDB0 : DB := ⟨[startQuiz], [nextQuestionRow], [], [], [], 0⟩

/-- After Start: game 0 created. -/
def traceDB1 : DB := (service_start traceDB0 100 7).2

/-- After the first NextQuestion: pending GameQuestion 1 committed (the call
itself raises AttributeError after the commit). -/
def traceDB2 : DB := (service_next_question traceDB1 0 7).2

/-- After answering GameQuestion 1 with the correct choice. -/
def traceDB3 : DB := (service_answer_question traceDB2 [1] 0 1 7).2

/-- The witness trace is reachable. -/
theorem traceDB3_reachable : Reachable traceDB3 :=
  Reachable.step traceDB2 traceDB3
    (Reachable.step traceDB1 traceDB2
      (Reachable.step traceDB0 traceDB1
        (Reachable.init traceDB0 rfl rfl rfl)
        (Step.start traceDB0 100 7))
      (Step.next traceDB1 0 7))
    (Step.answer traceDB2 [1] 0 1 7)

/-- C6 witness: in the concrete reachable store where GameQuestion 1 is
already answered, a second Answer and a Skip both fail AlreadyResolved and
change nothing. -/
theorem game_question_write_once_witness :
    (∃ e, isAlreadyResolved e ∧
      service_answer_question traceDB3 [1] 0 1 7 = (.error e, traceDB3)) ∧
    (∃ e, isAlreadyResolved e ∧
      service_skip_question traceDB3 0 1 7 = (.error e, traceDB3)) := by
  have hgqs : traceDB3.gameQuestions = [(⟨1, true, false, 1, 10, 0⟩ : GameQuestion)] := by
    with_unfolding_all rfl
  have hmem : (⟨1, true, false, 1, 10, 0⟩ : GameQuestion) ∈ traceDB3.gameQuestions := by
    rw [hgqs]
    exact List.mem_singleton_self _
  have hget : get_game traceDB3 0 7 = .ok ⟨0, 7, 100, false, 1, 1⟩ := by
    with_unfolding_all rfl
  exact (game_question_write_once traceDB3 traceDB3_reachable).2 0 7 [1]
    ⟨1, true, false, 1, 10, 0⟩ ⟨0, 7, 100, false, 1, 1⟩ hmem rfl (Or.inl rfl) hget

end WriteOnceClaim

section ResultsClaims

/-- A published quiz with no questions at all: `service_start` does not check
the question count. -/
def c9quiz : Quiz := ⟨200, "empty quiz", true, false, 3⟩

/-- Store with only the empty published quiz. -/
def c9db0 : DB := ⟨[c9quiz], [], [], [], [], 0⟩

/-- After Start on the empty quiz. -/
def c9db1 : DB := (service_start c9db0 200 7).2

/-- After NextQuestion, which finds the sequencer exhausted immediately and
marks the game finished with no GameQuestion ever created. -/
def c9db2 : DB := (service_next_question c9db1 0 7).2

/-- C9 counterexample: Start succeeds on a published quiz with zero questions,
the first NextQuestion finishes the game with zero resolved GameQuestions, and
GetResults then computes `score / 0` and raises `ZeroDivisionError`. -/
theorem get_results_zero_division :
    (service_start c9db0 200 7).1 = .ok 0 ∧
    (service_next_question c9db1 0 7).1 =
      .error (.http 400 "Game is already finished") ∧
    c9db2.games = [⟨0, 7, 200, true, 0, 0⟩] ∧
    c9db2.gameQuestions = [] ∧
    service_get_results c9db2 0 7 = .error .pyZeroDivision := by
  refine ⟨?_, ?_, ?_, ?_, ?_⟩ <;> with_unfolding_all rfl

/-- C9 (amended): for a reachable finished game whose quiz has at least one
question, at least one GameQuestion row exists for the game and
`service_get_results` succeeds (no division by zero); the unconditional claim
fails because Start does not require the quiz to have any questions. -/
theorem finished_game_results_defined :
    ∀ db : DB, Reachable db → ∀ g ∈ db.games, g.finished = true →
      1 ≤ numQuestions db g.quiz_id →
      1 ≤ (db.gameQuestions.filter (fun gq => gq.game_id == g.id)).length ∧
      ∃ r, service_get_results db g.id g.user_id = .ok r := by
  intro db hr g hg hfin hq
  have hI := reachable_inv hr
  have h1 : 1 ≤ resolvedCount db g.id := by
    rw [hI.resolved_eq_offset g hg]
    exact le_trans hq (hI.finished_exhausted g hg hfin)
  have h2 : resolvedCount db g.id ≤
      (db.gameQuestions.filter (fun gq => gq.game_id == g.id)).length := by
    rw [resolvedCount_eq, ← List.countP_eq_length_filter]
    apply countP_le_of_imp
    intro a ha hpa
    rw [resolvedPred, Bool.and_eq_true] at hpa
    exact hpa.1
  have hlen := le_trans h1 h2
  refine ⟨hlen, ?_⟩
  have hpx : (g.id == g.id && g.user_id == g.user_id) = true := by simp
  have huniq : ∀ y ∈ db.games, (y.id == g.id && y.user_id == g.user_id) = true →
      y = g := by
    intro y hy hpy
    rw [Bool.and_eq_true, beq_iff_eq, beq_iff_eq] at hpy
    exact List.inj_on_of_nodup_map hI.games_nodup hy hg hpy.1
  have hfil : db.games.filter (fun x => x.id == g.id && x.user_id == g.user_id) =
      [g] :=
    filter_eq_singleton_of_unique db.games Game.id hI.games_nodup _ g hg hpx huniq
  have hget : get_game db g.id g.user_id = .ok g := by
    rw [get_game, hfil]
  rw [service_get_results.eq_def, hget]
  dsimp only
  have hncond : ¬((!g.finished) = true) := by
    rw [hfin]
    decide
  rw [if_neg hncond]
  have hsome : ∀ gq ∈ db.gameQuestions.filter (fun gq => gq.game_id == g.id),
      ((db.questions.find? (fun q => q.id == gq.question_id)).map
        (fun q => (gq.answer_score, q.title))).isSome = true := by
    intro gq hgq
    have hmem := (List.mem_filter.mp hgq).1
    obtain ⟨q, hq2, hqid⟩ := hI.gq_question_exists gq hmem
    have hfs : (db.questions.find? (fun q => q.id == gq.question_id)).isSome = true := by
      rw [List.find?_isSome]
      exact ⟨q, hq2, by rw [beq_iff_eq]; exact hqid⟩
    obtain ⟨y, hy⟩ := Option.isSome_iff_exists.mp hfs
    rw [hy]
    rfl
  have hlen2 : ((db.gameQuestions.filter (fun gq => gq.game_id == g.id)).filterMap
      (fun gq => (db.questions.find? (fun q => q.id == gq.question_id)).map
        (fun q => (gq.answer_score, q.title)))).length =
      (db.gameQuestions.filter (fun gq => gq.game_id == g.id)).length :=
    length_filterMap_of_isSome _ _ hsome
  have hne0 : ((db.gameQuestions.filter (fun gq => gq.game_id == g.id)).filterMap
      (fun gq => (db.questions.find? (fun q => q.id == gq.question_id)).map
        (fun q => (gq.answer_score, q.title)))).length ≠ 0 := by
    rw [hlen2]
    omega
  rw [pydiv, if_neg hne0]
  exact ⟨_, rfl⟩

/-- The finished one-question play-through: NextQuestion after the single
answer marks the game finished. -/
def traceDB4 : DB := (service_next_question traceDB3 0 7).2

/-- The finished trace store is reachable. -/
theorem traceDB4_reachable : Reachable traceDB4 :=
  Reachable.step traceDB3 traceDB4 traceDB3_reachable (Step.next traceDB3 0 7)

/-- C9 witness: in the finished one-question play-through the game has a
GameQuestion row and GetResults succeeds. -/
theorem finished_game_results_defined_witness :
    1 ≤ (traceDB4.gameQuestions.filter (fun gq => gq.game_id == 0)).length ∧
    ∃ r, service_get_results traceDB4 0 7 = .ok r := by
  have hgames : traceDB4.games = [(⟨0, 7, 100, true, 1, 1⟩ : Game)] := by
    with_unfolding_all rfl
  have hmem : (⟨0, 7, 100, true, 1, 1⟩ : Game) ∈ traceDB4.games := by
    rw [hgames]
    exact List.mem_singleton_self _
  have hnq : numQuestions traceDB4 100 = 1 := by
    with_unfolding_all rfl
  exact finished_game_results_defined traceDB4 traceDB4_reachable
    ⟨0, 7, 100, true, 1, 1⟩ hmem rfl (by rw [hnq])

end ResultsClaims

end QuizApp
